import Mathlib

/-!
# generate-firestore-tests: request assembly and fixture tables

A shallow embedding of `cmd/generate-firestore-tests/generate-firestore-tests.go`.

Conventions of the embedding:

* a Go slice or map that may be `nil` is an `Option`: `none` is `nil`, `some []` is
  empty but non-nil;
* a Go map is an association list with distinct keys, assignment `m[k] = v` replacing
  the entry of an existing key and appending a new key otherwise;
* a run that ends in a panic or in `log.Fatalf` is `none` in the `Option` monad;
* a pointer to a protobuf message that may be `nil` is an `Option` of the message.
-/

namespace FirestoreTests

/-! ## Wire types (package `fspb`) -/

/-- The typed value `fspb.Value` with the three kinds the generator builds. -/
inductive Value where
  | IntegerValue (v : Int)
  | BooleanValue (v : Bool)
  | MapValue (Fields : Option (List (String × Value)))

/-- The entries of a Go `map[string]*fspb.Value`. -/
abbrev Fields := List (String × Value)

/-- The message `timestamp.Timestamp`. -/
structure Timestamp where
  Seconds : Int
  Nanos : Int
  deriving DecidableEq

/-- The message `fspb.Precondition`, by its condition type. -/
inductive Precondition where
  | Exists (b : Bool)
  | UpdateTime (t : Timestamp)
  deriving DecidableEq

/-- The message `fspb.Document`. -/
structure Document where
  Name : String
  Fields : Option Fields

/-- The message `fspb.DocumentMask`. -/
structure DocumentMask where
  FieldPaths : Option (List String)
  deriving DecidableEq

/-- The enumeration `fspb.DocumentTransform_FieldTransform_ServerValue`. -/
inductive ServerValue where
  | SERVER_VALUE_UNSPECIFIED
  | REQUEST_TIME
  deriving DecidableEq

/-- The transform type of a field transform. -/
inductive TransformType where
  | SetToServerValue (v : ServerValue)
  deriving DecidableEq

/-- The message `fspb.DocumentTransform_FieldTransform`. -/
structure FieldTransform where
  FieldPath : String
  TransformType : TransformType
  deriving DecidableEq

/-- The message `fspb.DocumentTransform`. -/
structure DocumentTransform where
  Document : String
  FieldTransforms : Option (List FieldTransform)
  deriving DecidableEq

/-- The operation of a write: `Write_Update`, `Write_Transform` or `Write_Delete`. -/
inductive Operation where
  | Update (Update : Document)
  | Transform (Transform : DocumentTransform)
  | Delete (Delete : String)

/-- The message `fspb.Write`; the zero value `&fspb.Write{}` has every field `nil`. -/
structure Write where
  Operation : Option Operation := none
  UpdateMask : Option DocumentMask := none
  CurrentDocument : Option Precondition := none

/-- The message `fspb.CommitRequest`. -/
structure CommitRequest where
  Database : String
  Writes : Option (List Write)

/-! ## Constants and Go built-ins -/

/-- The constant `database`. -/
def database : String := "projects/projectID/databases/(default)"

/-- The constant `docPath`. -/
def docPath : String := database ++ "/documents/C/d"

/-- The variable `existsTruePrecondition`. -/
def existsTruePrecondition : Option Precondition := some (.Exists true)

/-- Go's built-in `append(s, x)` with one element: the result is never `nil`. -/
def append {α : Type} (s : Option (List α)) (x : α) : Option (List α) :=
  some (s.getD [] ++ [x])

/-- Go's conversion `int64(i)`: the value reduced into the signed 64-bit range. -/
def int64 (i : Int) : Int := (i + 2 ^ 63) % 2 ^ 64 - 2 ^ 63

/-- Go's map assignment `m[k] = v`. -/
def mapAssign : Fields → String → Value → Fields
  | [], k, v => [(k, v)]
  | (k', v') :: rest, k, v =>
    if k' = k then (k, v) :: rest else (k', v') :: mapAssign rest k v

/-! ## The request assembler -/

/-- The function `newCommitRequest`. -/
def newCommitRequest (writeFields : Option Fields) (mask transform : Option (List String)) :
    CommitRequest :=
  let writes : Option (List Write) := none
  let writes :=
    if writeFields.isSome || mask.isSome then
      let w : Write := {}
      let w :=
        if writeFields.isSome || mask.isSome then
          { w with Operation := some (.Update { Name := docPath, Fields := writeFields }) }
        else w
      let w := if mask.isSome then { w with UpdateMask := some { FieldPaths := mask } } else w
      append writes w
    else writes
  let writes :=
    match transform with
    | none => writes
    | some ps =>
      let fts := ps.foldl
        (fun fts p => append fts
          { FieldPath := p, TransformType := .SetToServerValue .REQUEST_TIME })
        (none : Option (List FieldTransform))
      append writes
        { Operation := some (.Transform { Document := docPath, FieldTransforms := fts }) }
  { Database := database, Writes := writes }

/-! ## Value construction: `mp`, `val`, `intval`, `boolval`, `mapval` -/

/-- A dynamically typed Go value (`interface{}`) as `mp` and `val` receive it; `int` is
the platform integer, `other` any type outside the four named. -/
inductive Arg where
  | int (x : Int)
  | bool (x : Bool)
  | string (x : String)
  | map (x : Option Fields)
  | other

/-- The function `intval`. -/
def intval (i : Int) : Value := .IntegerValue (int64 i)

/-- The function `boolval`. -/
def boolval (b : Bool) : Value := .BooleanValue b

/-- The function `mapval`. -/
def mapval (m : Option Fields) : Value := .MapValue m

/-- The function `val`; the default case ends the run with `log.Fatalf`. -/
def val : Arg → Option Value
  | .int x => some (intval x)
  | .bool x => some (boolval x)
  | .map x => some (mapval x)
  | _ => none

/-- The loop of `mp` over the remaining arguments, two at a time: a key that is not a
string fails the type assertion, a missing value is an index out of range. -/
def mpLoop : List Arg → Fields → Option Fields
  | [], m => some m
  | [_], _ => none
  | .string k :: a :: rest, m =>
    match val a with
    | some v => mpLoop rest (mapAssign m k v)
    | none => none
  | _ :: _ :: _, _ => none

/-- The function `mp`: the map it returns is never `nil`. -/
def mp (args : List Arg) : Option Fields := mpLoop args []

/-! ## Observations on a request -/

/-- The writes of a request as a list (a `nil` slice has no element). -/
def CommitRequest.writes (r : CommitRequest) : List Write := r.Writes.getD []

/-- Whether a write is an update-write. -/
def Write.isUpdate (w : Write) : Bool :=
  match w.Operation with
  | some (.Update _) => true
  | _ => false

/-- Whether a write is a transform-write. -/
def Write.isTransform (w : Write) : Bool :=
  match w.Operation with
  | some (.Transform _) => true
  | _ => false

/-- The field map of an update-write. -/
def Write.updateFields (w : Write) : Option Fields :=
  match w.Operation with
  | some (.Update d) => d.Fields
  | _ => none

/-- The update-write `newCommitRequest` builds for the given fields and mask. -/
def updateWrite (writeFields : Option Fields) (mask : Option (List String)) : Write :=
  { Operation := some (.Update { Name := docPath, Fields := writeFields }),
    UpdateMask := if mask.isSome then some { FieldPaths := mask } else none }

/-- The transform-write `newCommitRequest` builds for a non-nil transform list. -/
def transformWrite (ps : List String) : Write :=
  { Operation := some (.Transform
      { Document := docPath,
        FieldTransforms := ps.foldl
          (fun fts p => append fts
            { FieldPath := p, TransformType := .SetToServerValue .REQUEST_TIME })
          none }) }

/-! ## Sentinel-free value trees and their encoding through `mp` and `val` -/

/-- A value tree without sentinels: an integer, a boolean or a string-keyed map. -/
inductive ValueNode where
  | integer (i : Int)
  | boolean (b : Bool)
  | map (entries : List (String × ValueNode))

/-- Whether an integer is a value of Go's `int` (64 bits wide at most). -/
def isInt (i : Int) : Bool := decide (-(2 : Int) ^ 63 ≤ i) && decide (i < (2 : Int) ^ 63)

/-- Whether an argument of type `int` holds a value of Go's `int`. -/
def Arg.inRange : Arg → Bool
  | .int x => isInt x
  | _ => true

mutual
/-- The argument handed to `val` for a node; a map node is built by a nested `mp` call,
as in `mp("h", mp("g", 3))`. -/
def encodeArg : ValueNode → Option Arg
  | .integer i => some (.int i)
  | .boolean b => some (.bool b)
  | .map es =>
    match encodeArgs es with
    | some args => (mp args).map (fun m => Arg.map (some m))
    | none => none
/-- The argument list `k1, v1, k2, v2, ...` of `mp` for the entries of a map. -/
def encodeArgs : List (String × ValueNode) → Option (List Arg)
  | [] => some []
  | (k, v) :: rest =>
    match encodeArg v, encodeArgs rest with
    | some a, some as => some (.string k :: a :: as)
    | _, _ => none
end

/-- The field map `mp` builds for a top-level tree. -/
def encode (t : List (String × ValueNode)) : Option Fields :=
  (encodeArgs t).bind mp

mutual
/-- The value tree a typed value stands for. -/
def decodeValue : Value → ValueNode
  | .IntegerValue v => .integer v
  | .BooleanValue b => .boolean b
  | .MapValue none => .map []
  | .MapValue (some m) => .map (decodeFields m)
/-- The entries a field map stands for. -/
def decodeFields : List (String × Value) → List (String × ValueNode)
  | [] => []
  | (k, v) :: rest => (k, decodeValue v) :: decodeFields rest
end

mutual
/-- Every integer of the node is a Go `int` and every map in it has distinct keys. -/
def ValueNode.wellFormed : ValueNode → Bool
  | .integer i => isInt i
  | .boolean _ => true
  | .map es => wellFormedEntries es
/-- The entries have distinct keys and well-formed values. -/
def wellFormedEntries : List (String × ValueNode) → Bool
  | [] => true
  | (k, v) :: rest =>
    rest.all (fun e => e.1 != k) && v.wellFormed && wellFormedEntries rest
end

/-! ## Fixture types (package `tpb`) -/

/-- Modelled from the spec: the generated package `./genproto` is not among the
sources; a field path is the list of segments the literal `&tpb.FieldPath{fp}` stores. -/
structure FieldPath where
  Field : Option (List String)
  deriving DecidableEq

/-- Modelled from the spec: the message `tpb.SetOption` of the absent package
`./genproto`, with the two fields the source sets: merge-all and explicit merge fields. -/
structure SetOption where
  All : Bool := false
  Fields : Option (List FieldPath) := none
  deriving DecidableEq

/-- Modelled from the spec: the message `tpb.CreateTest` of the absent package
`./genproto`, with the fields `genCreate` sets. -/
structure CreateTest where
  DocRefPath : String
  JsonData : String
  Request : Option CommitRequest
  IsError : Bool

/-- Modelled from the spec: the message `tpb.SetTest` of the absent package
`./genproto`, with the fields `genSet` sets. -/
structure SetTest where
  DocRefPath : String
  Options : Option (List SetOption)
  JsonData : String
  Request : Option CommitRequest
  IsError : Bool

/-- Modelled from the spec: the message `tpb.UpdateTest` of the absent package
`./genproto`, with the fields `genUpdate` sets. -/
structure UpdateTest where
  DocRefPath : String
  Precondition : Option Precondition
  JsonData : String
  Request : Option CommitRequest
  IsError : Bool

/-- Modelled from the spec: the message `tpb.UpdatePathsTest` of the absent package
`./genproto`, with the fields `genUpdatePaths` sets. -/
structure UpdatePathsTest where
  DocRefPath : String
  Precondition : Option Precondition
  FieldPaths : Option (List FieldPath)
  JsonValues : Option (List String)
  Request : Option CommitRequest
  IsError : Bool

/-- The message `fspb.GetDocumentRequest`, with the field `genGet` sets. -/
structure GetDocumentRequest where
  Name : String
  deriving DecidableEq

/-- Modelled from the spec: the message `tpb.GetTest` of the absent package
`./genproto`, with the fields `genGet` sets. -/
structure GetTest where
  DocRefPath : String
  Request : Option GetDocumentRequest

/-- Modelled from the spec: the message `tpb.DeleteTest` of the absent package
`./genproto`, with the fields `genDelete` sets. -/
structure DeleteTest where
  DocRefPath : String
  Precondition : Option Precondition
  Request : Option CommitRequest
  IsError : Bool

/-- Modelled from the spec: the kinds of `tpb.Test` (absent package `./genproto`) that
the generators build. -/
inductive TestCase where
  | Get (t : GetTest)
  | Create (t : CreateTest)
  | Set (t : SetTest)
  | Update (t : UpdateTest)
  | UpdatePaths (t : UpdatePathsTest)
  | Delete (t : DeleteTest)

/-- Modelled from the spec: the message `tpb.Test` of the absent package `./genproto`. -/
structure Test where
  Description : String
  Test : TestCase

/-- The `Request` field of a fixture when it is a commit request (`nil` for a get
fixture, whose request is a `GetDocumentRequest`). -/
def Test.request (t : FirestoreTests.Test) : Option CommitRequest :=
  match t.Test with
  | .Get _ => none
  | .Create c => c.Request
  | .Set c => c.Request
  | .Update c => c.Request
  | .UpdatePaths c => c.Request
  | .Delete c => c.Request

/-- The `IsError` field of a fixture (a get fixture has none). -/
def Test.isError (t : FirestoreTests.Test) : Bool :=
  match t.Test with
  | .Get _ => false
  | .Create c => c.IsError
  | .Set c => c.IsError
  | .Update c => c.IsError
  | .UpdatePaths c => c.IsError
  | .Delete c => c.IsError

/-- The `Precondition` field of a fixture (`nil` for the kinds without one). -/
def Test.precondition (t : FirestoreTests.Test) : Option Precondition :=
  match t.Test with
  | .Update c => c.Precondition
  | .UpdatePaths c => c.Precondition
  | .Delete c => c.Precondition
  | _ => none

/-! ## Merge options -/

/-- Go's `strings.Split` on character lists, for a one-character separator: the pieces
between the separators, always at least one. -/
def splitChars (sep : Char) : List Char → List (List Char)
  | [] => [[]]
  | c :: cs =>
    if c = sep then [] :: splitChars sep cs
    else
      match splitChars sep cs with
      | seg :: rest => (c :: seg) :: rest
      | [] => [[c]]

/-- Go's `strings.Split(s, sep)` for a one-character separator. -/
def stringsSplit (s : String) (sep : Char) : List String :=
  (splitChars sep s.data).map String.mk

/-- The function `toFieldPaths`. -/
def toFieldPaths (fps : Option (List (Option (List String)))) : Option (List FieldPath) :=
  (fps.getD []).foldl (fun ps fp => append ps { Field := fp }) none

/-- The function `mergePathsOption`; the variadic parameter is the slice `fps`. -/
def mergePathsOption (fps : Option (List (Option (List String)))) : SetOption :=
  { Fields := toFieldPaths fps }

/-- The function `mergeOption`; the variadic parameter is the slice `paths`. -/
def mergeOption (paths : Option (List String)) : SetOption :=
  let fps := (paths.getD []).foldl
    (fun fps p => append fps (some (stringsSplit p (Char.ofNat 46))))
    (none : Option (List (Option (List String))))
  mergePathsOption fps

/-- The variable `mergeAllOption`. -/
def mergeAllOption : Option SetOption := some { All := true }

/-! ## Loops over the fixture tables -/

/-- A loop `for i, test := range table` whose body ends in one call of `writeTest`:
the arguments of the calls in order, or `none` when a body panics. -/
def forRange {ρ τ : Type} (body : Nat → ρ → Option τ) : Nat → List ρ → Option (List τ)
  | _, [] => some []
  | i, r :: rs =>
    match body i r with
    | some t => (forRange body (i + 1) rs).map (fun ts => t :: ts)
    | none => none

/-- The rows of a table literal, built in order: `none` when building one of them
panics. -/
def tableRows {ρ : Type} : List (Option ρ) → Option (List ρ)
  | [] => some []
  | none :: _ => none
  | some r :: rs => (tableRows rs).map (fun l => r :: l)

/-- The assignment `req.Writes[0].CurrentDocument = p`: indexing an empty or nil
`Writes` panics. -/
def setFirstCurrentDocument (req : CommitRequest) (p : Option Precondition) :
    Option CommitRequest :=
  match req.Writes with
  | some (w :: ws) => some { req with Writes := some ({ w with CurrentDocument := p } :: ws) }
  | _ => none

/-! ## The fixture tables and their generators

The global `updateTimePrecondition` is read by the tables of `genUpdate`,
`genUpdatePaths` and `genDelete`; it is a parameter of their embeddings, and `main`
assigns it before the generators run. -/

/-- The value `main` assigns to `updateTimePrecondition`, for the timestamp that
`ptypes.TimestampProto` returns. -/
def mainUpdateTimePrecondition (aTimestamp : Timestamp) : Option Precondition :=
  some (.UpdateTime aTimestamp)

/-- A row of the table of `genCreate`. -/
structure CreateRow where
  desc : String
  data : String
  write : Option Fields := none
  mask : Option (List String) := none
  transform : Option (List String) := none
  isErr : Bool := false

/-- The table of `genCreate`; its `mp` calls run before the loop. -/
def genCreateTable : Option (List CreateRow) :=
  tableRows [
    (do pure {
      desc := "basic create",
      data := "\x7b\"a\": 1\x7d",
      write := some (← mp [.string "a", .int 1]) }),
    (do pure {
      desc := "donâ€™t split on dots",
      data := "\x7b \"a.b\": \x7b \"c.d\": 1 \x7d, \"e\": 2 \x7d",
      write := some (← mp [.string "a.b", .map (some (← mp [.string "c.d", .int 1])), .string "e", .int 2]) }),
    (do pure {
      desc := "a ServerTimestamp field becomes a transform",
      data := "\x7b\"a\": 1, \"b\": \"ServerTimestamp\"\x7d",
      write := some (← mp [.string "a", .int 1]),
      transform := some ["b"] }),
    (do pure {
      desc := "nested ServerTimestamp field",
      data := "\x7b\"a\": 1, \"b\": \x7b\"c\": \"ServerTimestamp\"\x7d\x7d",
      write := some (← mp [.string "a", .int 1]),
      transform := some ["b.c"] }),
    (do pure {
      desc := "multiple ServerTimestamp fields",
      data := "\x7b\"a\": 1, \"b\": \"ServerTimestamp\", \"c\": \x7b\"d\": \"ServerTimestamp\"\x7d\x7d",
      write := some (← mp [.string "a", .int 1]),
      transform := some ["b", "c.d"] }),
    (do pure {
      desc := "ServerTimestamp cannot be in an array value",
      data := "\x7b\"a\": [\"ServerTimestamp\"]\x7d",
      isErr := true }),
    (do pure {
      desc := "Delete cannot appear in data",
      data := "\x7b\"a\": 1, \"b\": \"Delete\"\x7d",
      isErr := true })]

/-- The body of the loop of `genCreate`, up to its call of `writeTest`: the file name
and the fixture passed, or `none` when the body panics. -/
def genCreateBody (i : Nat) (test : CreateRow) : Option (String × Test) := do
  let req : Option CommitRequest ←
    if !test.isErr then
      (setFirstCurrentDocument (newCommitRequest test.write test.mask test.transform)
        (some (.Exists false))).map some
    else some none
  pure ("create-" ++ toString (i + 1),
    { Description := test.desc,
      Test := .Create
        { DocRefPath := docPath, JsonData := test.data, Request := req,
          IsError := test.isErr } })

/-- The function `genCreate`: the calls of `writeTest` in order. -/
def genCreate : Option (List (String × Test)) := do
  let table ← genCreateTable
  forRange genCreateBody 0 table

/-- A row of the table of `genSet`. -/
structure SetRow where
  desc : String
  data : String
  opt : Option SetOption := none
  write : Option Fields := none
  mask : Option (List String) := none
  transform : Option (List String) := none
  isErr : Bool := false

/-- The table of `genSet`; its `mp` calls run before the loop. -/
def genSetTable : Option (List SetRow) :=
  tableRows [
    (do pure {
      desc := "Set with no options",
      data := "\x7b\"a\": 1\x7d",
      write := some (← mp [.string "a", .int 1]) }),
    (do pure {
      desc := "Don't split on dots",
      data := "\x7b \"a.b\": \x7b \"f.g\": 2 \x7d, \"h\": \x7b \"g\": 3 \x7d \x7d",
      write := some (← mp [.string "a.b", .map (some (← mp [.string "f.g", .int 2])), .string "h", .map (some (← mp [.string "g", .int 3]))]) }),
    (do pure {
      desc := "MergeAll",
      data := "\x7b\"a\": 1, \"b\": 2\x7d",
      opt := mergeAllOption,
      write := some (← mp [.string "a", .int 1, .string "b", .int 2]),
      mask := some ["a", "b"] }),
    (do pure {
      desc := "MergeAll with nested fields",
      data := "\x7b\"h\": \x7b \"g\": 3, \"f\": 4 \x7d\x7d",
      opt := mergeAllOption,
      write := some (← mp [.string "h", .map (some (← mp [.string "g", .int 3, .string "f", .int 4]))]),
      mask := some ["h.f", "h.g"] }),
    (do pure {
      desc := "Merge with a field",
      data := "\x7b\"a\": 1, \"b\": 2\x7d",
      opt := some (mergeOption (some ["a"])),
      write := some (← mp [.string "a", .int 1]),
      mask := some ["a"] }),
    (do pure {
      desc := "Merge with a nested field",
      data := "\x7b\"h\": \x7b\"g\": 4, \"f\": 5\x7d\x7d",
      opt := some (mergeOption (some ["h.g"])),
      write := some (← mp [.string "h", .map (some (← mp [.string "g", .int 4]))]),
      mask := some ["h.g"] }),
    (do pure {
      desc := "Merge field is not a leaf",
      data := "\x7b\"h\": \x7b\"g\": 5, \"f\": 6\x7d, \"e\": 7\x7d",
      opt := some (mergeOption (some ["h"])),
      write := some (← mp [.string "h", .map (some (← mp [.string "g", .int 5, .string "f", .int 6]))]),
      mask := some ["h"] }),
    (do pure {
      desc := "Merge with FieldPaths",
      data := "\x7b\"*\": \x7b\"~\": true\x7d\x7d",
      opt := some (mergePathsOption (some [some ["*", "~"]])),
      write := some (← mp [.string "*", .map (some (← mp [.string "~", .bool true]))]),
      mask := some ["`*`.`~`"] }),
    (do pure {
      desc := "a ServerTimestamp field becomes a transform",
      data := "\x7b\"a\": 1, \"b\": \"ServerTimestamp\"\x7d",
      write := some (← mp [.string "a", .int 1]),
      transform := some ["b"] }),
    (do pure {
      desc := "nested ServerTimestamp field",
      data := "\x7b\"a\": 1, \"b\": \x7b\"c\": \"ServerTimestamp\"\x7d\x7d",
      write := some (← mp [.string "a", .int 1]),
      transform := some ["b.c"] }),
    (do pure {
      desc := "multiple ServerTimestamp fields",
      data := "\x7b\"a\": 1, \"b\": \"ServerTimestamp\", \"c\": \x7b\"d\": \"ServerTimestamp\"\x7d\x7d",
      write := some (← mp [.string "a", .int 1]),
      transform := some ["b", "c.d"] }),
    (do pure {
      desc := "ServerTimestamp with MergeAll",
      data := "\x7b\"a\": 1, \"b\": \"ServerTimestamp\"\x7d",
      opt := mergeAllOption,
      write := some (← mp [.string "a", .int 1]),
      mask := some ["a"],
      transform := some ["b"] }),
    (do pure {
      desc := "ServerTimestamp with Merge of both fields",
      data := "\x7b\"a\": 1, \"b\": \"ServerTimestamp\"\x7d",
      opt := some (mergeOption (some ["a", "b"])),
      write := some (← mp [.string "a", .int 1]),
      mask := some ["a"],
      transform := some ["b"] }),
    (do pure {
      desc := "If is ServerTimestamp not in Merge, no transform",
      data := "\x7b\"a\": 1, \"b\": \"ServerTimestamp\"\x7d",
      opt := some (mergeOption (some ["a"])),
      write := some (← mp [.string "a", .int 1]),
      mask := some ["a"] }),
    (do pure {
      desc := "If no ordinary values in Merge, no write",
      data := "\x7b\"a\": 1, \"b\": \"ServerTimestamp\"\x7d",
      opt := some (mergeOption (some ["b"])),
      transform := some ["b"] }),
    (do pure {
      desc := "Merge fields must all be present in data",
      data := "\x7b\"a\": 1\x7d",
      opt := some (mergeOption (some ["b", "a"])),
      isErr := true }),
    (do pure {
      desc := "ServerTimestamp cannot be in an array value",
      data := "\x7b\"a\": [\"ServerTimestamp\"]\x7d",
      isErr := true }),
    (do pure {
      desc := "Delete cannot appear in data",
      data := "\x7b\"a\": 1, \"b\": \"Delete\"\x7d",
      isErr := true }),
    (do pure {
      desc := "Delete cannot even appear in an unmerged field",
      data := "\x7b\"a\": 1, \"b\": \"Delete\"\x7d",
      opt := some (mergeOption (some ["a"])),
      isErr := true })]

/-- The body of the loop of `genSet`, up to its call of `writeTest`: the file name
and the fixture passed, or `none` when the body panics. -/
def genSetBody (i : Nat) (test : SetRow) : Option (String × Test) := do
  let opts : Option (List SetOption) :=
    match test.opt with
    | some opt => some [opt]
    | none => none
  let req : Option CommitRequest :=
    if !test.isErr then some (newCommitRequest test.write test.mask test.transform)
    else none
  pure ("set-" ++ toString (i + 1),
    { Description := test.desc,
      Test := .Set
        { DocRefPath := docPath, Options := opts, JsonData := test.data, Request := req,
          IsError := test.isErr } })

/-- The function `genSet`: the calls of `writeTest` in order. -/
def genSet : Option (List (String × Test)) := do
  let table ← genSetTable
  forRange genSetBody 0 table

/-- A row of the table of `genUpdate`. -/
structure UpdateRow where
  desc : String
  data : String
  precond : Option Precondition := none
  write : Option Fields := none
  mask : Option (List String) := none
  transform : Option (List String) := none
  isErr : Bool := false

/-- The table of `genUpdate`; its `mp` calls run before the loop. -/
def genUpdateTable (updateTimePrecondition : Option Precondition) :
    Option (List UpdateRow) :=
  tableRows [
    (do pure {
      desc := "basic update",
      data := "\x7b\"a\": 1, \"b\": 2\x7d",
      write := some (← mp [.string "a", .int 1, .string "b", .int 2]),
      mask := some ["a", "b"] }),
    (do pure {
      desc := "nested paths",
      data := "\x7b\"a\": 1, \"b\": \x7b\"c\": 2\x7d\x7d",
      write := some (← mp [.string "a", .int 1, .string "b", .map (some (← mp [.string "c", .int 2]))]),
      mask := some ["a", "b"] }),
    (do pure {
      desc := "split on dots",
      data := "\x7b\"a.b.c\": 1\x7d",
      write := some (← mp [.string "a", .map (some (← mp [.string "b", .map (some (← mp [.string "c", .int 1]))]))]),
      mask := some ["a.b.c"] }),
    (do pure {
      desc := "Split on dots for top-level keys only",
      data := "\x7b\"h.g\": \x7b\"j.k\": 6\x7d\x7d",
      write := some (← mp [.string "h", .map (some (← mp [.string "g", .map (some (← mp [.string "j.k", .int 6]))]))]),
      mask := some ["h.g"] }),
    (do pure {
      desc := "Delete",
      data := "\x7b\"a\": 1, \"b\": \"Delete\"\x7d",
      write := some (← mp [.string "a", .int 1]),
      mask := some ["a", "b"] }),
    (do pure {
      desc := "Delete alone",
      data := "\x7b\"a\": \"Delete\"\x7d",
      write := some (← mp []),
      mask := some ["a"] }),
    (do pure {
      desc := "Delete with a dotted field",
      data := "\x7b\"a\": 1, \"b.c\": \"Delete\"\x7d",
      write := some (← mp [.string "a", .int 1]),
      mask := some ["a", "b.c"] }),
    (do pure {
      desc := "last-update-time precondition",
      data := "\x7b\"a\": 1\x7d",
      precond := updateTimePrecondition,
      write := some (← mp [.string "a", .int 1]),
      mask := some ["a"] }),
    (do pure {
      desc := "a ServerTimestamp field becomes a transform",
      data := "\x7b\"a\": 1, \"b\": \"ServerTimestamp\"\x7d",
      write := some (← mp [.string "a", .int 1]),
      mask := some ["a"],
      transform := some ["b"] }),
    (do pure {
      desc := "nested ServerTimestamp field",
      data := "\x7b\"a\": 1, \"b\": \x7b\"c\": \"ServerTimestamp\"\x7d\x7d",
      write := some (← mp [.string "a", .int 1]),
      mask := some ["a", "b"],
      transform := some ["b.c"] }),
    (do pure {
      desc := "multiple ServerTimestamp fields",
      data := "\x7b\"a\": 1, \"b\": \"ServerTimestamp\", \"c\": \x7b\"d\": \"ServerTimestamp\"\x7d\x7d",
      write := some (← mp [.string "a", .int 1]),
      mask := some ["a", "c"],
      transform := some ["b", "c.d"] }),
    (do pure {
      desc := "ServerTimestamp with dotted field",
      data := "\x7b\"a.b.c\": \"ServerTimestamp\"\x7d",
      mask := some [],
      transform := some ["a.b.c"] }),
    (do pure {
      desc := "no paths",
      data := "\x7b\x7d",
      isErr := true }),
    (do pure {
      desc := "invalid character",
      data := "\x7b\"a~b\": 1\x7d",
      isErr := true }),
    (do pure {
      desc := "a path component cannot be empty",
      data := "\x7b\"a..b\": 1\x7d",
      isErr := true }),
    (do pure {
      desc := "one field cannot be a prefix of another",
      data := "\x7b\"a.b\": 1, \"a\": 2\x7d",
      isErr := true }),
    (do pure {
      desc := "Delete cannot be in an array value",
      data := "\x7b\"a.b\": 1, \"a\": [2, 3, \"Delete\"]\x7d",
      isErr := true }),
    (do pure {
      desc := "Delete cannot be nested",
      data := "\x7b\"a\": \x7b\"b\": \"Delete\"\x7d\x7d",
      isErr := true }),
    (do pure {
      desc := "Exists precondition is invalid",
      data := "\x7b\"a\": 1\x7d",
      precond := existsTruePrecondition,
      isErr := true })]

/-- The update request of a non-error row of `genUpdate` and `genUpdatePaths`: the
row's precondition, or `existsTruePrecondition` without one, goes on `Writes[0]`. -/
def updateRequest (write : Option Fields) (mask transform : Option (List String))
    (precond : Option Precondition) : Option CommitRequest :=
  let req := newCommitRequest write mask transform
  if precond.isSome then setFirstCurrentDocument req precond
  else setFirstCurrentDocument req existsTruePrecondition

/-- The body of the loop of `genUpdate`, up to its call of `writeTest`: the file name
and the fixture passed, or `none` when the body panics. -/
def genUpdateBody (i : Nat) (test : UpdateRow) : Option (String × Test) := do
  let req : Option CommitRequest ←
    if !test.isErr then
      (updateRequest test.write test.mask test.transform test.precond).map some
    else some none
  pure ("update-" ++ toString (i + 1),
    { Description := test.desc,
      Test := .Update
        { DocRefPath := docPath, Precondition := test.precond, JsonData := test.data,
          Request := req, IsError := test.isErr } })

/-- The function `genUpdate`: the calls of `writeTest` in order. -/
def genUpdate (updateTimePrecondition : Option Precondition) : Option (List (String × Test)) := do
  let table ← genUpdateTable updateTimePrecondition
  forRange genUpdateBody 0 table

/-- A row of the table of `genUpdatePaths`. -/
structure UpdatePathsRow where
  desc : String
  paths : Option (List (Option (List String))) := none
  values : Option (List String) := none
  precond : Option Precondition := none
  write : Option Fields := none
  mask : Option (List String) := none
  transform : Option (List String) := none
  isErr : Bool := false

/-- The table of `genUpdatePaths`; its `mp` calls run before the loop. -/
def genUpdatePathsTable (updateTimePrecondition : Option Precondition) :
    Option (List UpdatePathsRow) :=
  tableRows [
    (do pure {
      desc := "basic call",
      paths := some [some ["a"], some ["b", "c"]],
      values := some ["1", "2"],
      write := some (← mp [.string "a", .int 1, .string "b", .map (some (← mp [.string "c", .int 2]))]),
      mask := some ["a", "b.c"] }),
    (do pure {
      desc := "FieldPath elements are not split on dots",
      paths := some [some ["a.b", "f.g"]],
      values := some ["\x7b\"n.o\": 7\x7d"],
      write := some (← mp [.string "a.b", .map (some (← mp [.string "f.g", .map (some (← mp [.string "n.o", .int 7]))]))]),
      mask := some ["`a.b`.`f.g`"] }),
    (do pure {
      desc := "special characters",
      paths := some [some ["*", "~"], some ["*", "/"]],
      values := some ["1", "2"],
      write := some (← mp [.string "*", .map (some (← mp [.string "~", .int 1, .string "/", .int 2]))]),
      mask := some ["`*`.`/`", "`*`.`~`"] }),
    (do pure {
      desc := "last-update-time precondition",
      paths := some [some ["a"]],
      values := some ["1"],
      precond := updateTimePrecondition,
      write := some (← mp [.string "a", .int 1]),
      mask := some ["a"] }),
    (do pure {
      desc := "Delete",
      paths := some [some ["a", "b"], some ["b", "c"]],
      values := some ["1", "\"Delete\""],
      write := some (← mp [.string "a", .map (some (← mp [.string "b", .int 1]))]),
      mask := some ["a.b", "b.c"] }),
    (do pure {
      desc := "Delete alone",
      paths := some [some ["a", "b"]],
      values := some ["\"Delete\""],
      write := some (← mp []),
      mask := some ["a.b"] }),
    (do pure {
      desc := "ServerTimestamp",
      paths := some [some ["a", "b"], some ["c"]],
      values := some ["\"ServerTimestamp\"", "1"],
      write := some (← mp [.string "c", .int 1]),
      mask := some ["c"],
      transform := some ["a.b"] }),
    (do pure {
      desc := "ServerTimestamp alone",
      paths := some [some ["a", "b"]],
      values := some ["\"ServerTimestamp\""],
      write := none,
      mask := some [],
      transform := some ["a.b"] }),
    (do pure {
      desc := "no updates",
      paths := none,
      values := none,
      isErr := true }),
    (do pure {
      desc := "empty field path",
      paths := some [some []],
      values := some ["1"],
      isErr := true }),
    (do pure {
      desc := "empty field path component",
      paths := some [some ["*", ""]],
      values := some ["1"],
      isErr := true }),
    (do pure {
      desc := "the same field cannot occur more than once",
      paths := some [some ["a"], some ["b"], some ["a"]],
      values := some ["1", "2", "3"],
      isErr := true }),
    (do pure {
      desc := "one field cannot be a prefix of another",
      paths := some [some ["*", "a"], some ["b"], some ["*", "a", "b"]],
      values := some ["1", "2", "3"],
      isErr := true }),
    (do pure {
      desc := "Exists precondition is invalid",
      paths := some [some ["a"]],
      values := some ["1"],
      precond := existsTruePrecondition,
      isErr := true }),
    (do pure {
      desc := "Delete cannot be in an array value",
      paths := some [some ["a"]],
      values := some ["[\"Delete\"]"],
      isErr := true }),
    (do pure {
      desc := "Delete cannot be nested",
      paths := some [some ["a"]],
      values := some ["\x7b\"b\": \"Delete\"\x7d"],
      isErr := true })]

/-- The body of the loop of `genUpdatePaths`, up to its call of `writeTest`: the file name
and the fixture passed, or `none` when the body panics. -/
def genUpdatePathsBody (i : Nat) (test : UpdatePathsRow) : Option (String × Test) := do
  let req : Option CommitRequest ←
    if !test.isErr then
      (updateRequest test.write test.mask test.transform test.precond).map some
    else some none
  pure ("update-paths-" ++ toString (i + 1),
    { Description := test.desc,
      Test := .UpdatePaths
        { DocRefPath := docPath, Precondition := test.precond,
          FieldPaths := toFieldPaths test.paths, JsonValues := test.values,
          Request := req, IsError := test.isErr } })

/-- The function `genUpdatePaths`: the calls of `writeTest` in order. -/
def genUpdatePaths (updateTimePrecondition : Option Precondition) : Option (List (String × Test)) := do
  let table ← genUpdatePathsTable updateTimePrecondition
  forRange genUpdatePathsBody 0 table

/-- The function `genGet`: its one call of `writeTest`. -/
def genGet : Option (List (String × Test)) :=
  some [("get-1",
    { Description := "Get a document",
      Test := .Get { DocRefPath := docPath, Request := some { Name := docPath } } })]

/-- A row of the table of `genDelete`. -/
structure DeleteRow where
  desc : String
  precond : Option Precondition := none
  isErr : Bool := false

/-- The table of `genDelete`. -/
def genDeleteTable (updateTimePrecondition : Option Precondition) :
    Option (List DeleteRow) :=
  tableRows [
    (do pure {
      desc := "delete without precondition",
      precond := none }),
    (do pure {
      desc := "delete with last-update-time precondition",
      precond := updateTimePrecondition }),
    (do pure {
      desc := "delete with exists precondition",
      precond := existsTruePrecondition })]

/-- The body of the loop of `genDelete`, up to its call of `writeTest`: the file name
and the fixture passed, or `none` when the body panics. -/
def genDeleteBody (i : Nat) (test : DeleteRow) : Option (String × Test) := do
  let req : Option CommitRequest ←
    if !test.isErr then
      let req : CommitRequest :=
        { Database := database, Writes := some [{ Operation := some (.Delete docPath) }] }
      if test.precond.isSome then (setFirstCurrentDocument req test.precond).map some
      else some (some req)
    else some none
  pure ("delete-" ++ toString (i + 1),
    { Description := test.desc,
      Test := .Delete
        { DocRefPath := docPath, Precondition := test.precond, Request := req,
          IsError := test.isErr } })

/-- The function `genDelete`: the calls of `writeTest` in order. -/
def genDelete (updateTimePrecondition : Option Precondition) :
    Option (List (String × Test)) := do
  let table ← genDeleteTable updateTimePrecondition
  forRange genDeleteBody 0 table

/-! ## Writing the fixtures: `writeTest` and `main` -/

/-- The globals `nTests` and `outputDir`, with the files created so far (path and
content, in order) standing for the file system. -/
structure World where
  nTests : Nat
  outputDir : String
  files : List (String × Test)

/-- One step of Go's `filepath.Clean` over the elements of a path, the text between
its slashes, with the elements kept so far in `kept`, the last one first: an empty
element and `.` are dropped; `..` removes the last kept element when there is one
that is not `..`, and is otherwise kept only in a path that is not rooted; any other
element is kept. -/
def cleanStep (rooted : Bool) (kept : List (List Char)) (elem : List Char) :
    List (List Char) :=
  if elem = [] ∨ elem = ['.'] then kept
  else if elem = ['.', '.'] then
    match kept with
    | [] => if rooted then [] else [elem]
    | last :: rest =>
      if last = ['.', '.'] then (if rooted then kept else elem :: kept) else rest
  else elem :: kept

/-- Go's `filepath.Clean` for paths separated by slashes: the shortest path of the
same meaning, `.` for the empty one. -/
def filepathClean (path : String) : String :=
  let rooted : Bool := decide (path.data.head? = some '/')
  let kept := (splitChars '/' path.data).foldl (cleanStep rooted) []
  let out := (if rooted then ['/'] else []) ++ ['/'].intercalate kept.reverse
  if out = [] then "." else String.mk out

/-- Go's `filepath.Join(dir, name)` for paths separated by slashes: the elements from
the first non-empty one on, joined by a slash and cleaned; the empty string when both
are empty. -/
def filepathJoin (dir name : String) : String :=
  if dir ≠ "" then filepathClean (dir ++ "/" ++ name)
  else if name ≠ "" then filepathClean name
  else ""

/-- A file name: not empty, without slash, and neither `.` nor `..`. -/
def isFileName (f : String) : Bool :=
  decide (f.data ≠ []) && decide ('/' ∉ f.data) && decide (f.data ≠ ['.'])
    && decide (f.data ≠ ['.', '.'])

/-- The function `writeTest`; the parameter `writeTestToFile` tells whether creating
and writing the file succeeds, and a failure ends the run with `log.Fatalf`. -/
def writeTest (writeTestToFile : String → Test → Bool) (filename : String) (t : Test)
    (w : World) : Option World :=
  let pathname := filepathJoin w.outputDir (filename ++ ".textproto")
  if writeTestToFile pathname t then
    some { w with files := w.files ++ [(pathname, t)], nTests := w.nTests + 1 }
  else none

/-- The calls of `writeTest` of one generator, run in order. -/
def writeTests (writeTestToFile : String → Test → Bool) :
    List (String × Test) → World → Option World
  | [], w => some w
  | (filename, t) :: rest, w =>
    match writeTest writeTestToFile filename t w with
    | some w' => writeTests writeTestToFile rest w'
    | none => none

/-- The calls of `writeTest` in one run of `main`, generator after generator. -/
def mainCalls (aTimestamp : Timestamp) : Option (List (String × Test)) := do
  let updateTimePrecondition := mainUpdateTimePrecondition aTimestamp
  let get ← genGet
  let create ← genCreate
  let set ← genSet
  let update ← genUpdate updateTimePrecondition
  let updatePaths ← genUpdatePaths updateTimePrecondition
  let delete ← genDelete updateTimePrecondition
  pure (get ++ create ++ set ++ update ++ updatePaths ++ delete)

/-- The function `main`, up to its final `Printf`, which reports `nTests` of the
world returned: `gopath` is the environment variable, `timestampProto` the result of
`ptypes.TimestampProto(aTime)`, `none` for an error, which ends the run. -/
def main (gopath : String) (timestampProto : Option Timestamp)
    (writeTestToFile : String → Test → Bool) : Option World := do
  let outputDir := filepathJoin gopath "src/cloud.google.com/go/firestore/testdata"
  let aTimestamp ← timestampProto
  let calls ← mainCalls aTimestamp
  writeTests writeTestToFile calls { nTests := 0, outputDir := outputDir, files := [] }

/-! ## Checks on fixtures, evaluated on the lists the generators return -/

/-- The `JsonData` field of a fixture (`nil` for the kind without one). -/
def Test.jsonData (t : FirestoreTests.Test) : Option String :=
  match t.Test with
  | .Create c => some c.JsonData
  | .Set c => some c.JsonData
  | .Update c => some c.JsonData
  | _ => none

/-- The `Options` field of a set fixture (`nil` for the other kinds). -/
def Test.options (t : FirestoreTests.Test) : Option (List SetOption) :=
  match t.Test with
  | .Set c => c.Options
  | _ => none

/-- The request is absent exactly when the fixture is an error fixture. -/
def requestNilIffError (f : String × Test) : Bool :=
  f.2.request.isNone == f.2.isError

/-- A request whose first write is an update-write and whose later writes are
transform-writes without a precondition. -/
def updateFirst (req : CommitRequest) : Bool :=
  match req.Writes with
  | some (w :: ws) =>
    w.isUpdate && ws.all (fun w' => w'.isTransform && w'.CurrentDocument.isNone)
  | _ => false

/-- A create fixture that is an error, or whose request starts with an update-write
without mask under the precondition exists=false, followed by transform-writes
without a precondition. -/
def createCheck (f : String × Test) : Bool :=
  f.2.isError ||
    match f.2.request with
    | some req =>
      updateFirst req &&
        match req.Writes with
        | some (w :: _) =>
          w.UpdateMask.isNone && decide (w.CurrentDocument = some (.Exists false))
        | _ => false
    | none => false

/-- An update fixture with an exists precondition is an error; one that is not an
error has no precondition or a last-update-time one, and a request that starts with an
update-write followed by transform-writes without a precondition. -/
def updateCheck (f : String × Test) : Bool :=
  match f.2.precondition with
  | some (.Exists _) => f.2.isError
  | _ =>
    f.2.isError ||
      match f.2.request with
      | some req => updateFirst req
      | none => false

/-! ## The JSON text of the fixtures

The tables hold their input data as JSON text. The reader below covers the JSON the
tables use: objects, arrays, strings without escapes, unsigned integers, `true` and
`false`, with spaces between tokens. -/

/-- A JSON value. -/
inductive Json where
  | number (n : Int)
  | bool (b : Bool)
  | string (s : String)
  | array (items : List Json)
  | object (members : List (String × Json))

/-- The text after leading spaces. -/
def skipSpaces : List Char → List Char
  | [] => []
  | c :: cs => if c = Char.ofNat 32 then skipSpaces cs else c :: cs

/-- The digits at the head of the text, read as a decimal number after `acc`. -/
def parseDigits : List Char → Nat → Nat × List Char
  | [], acc => (acc, [])
  | c :: cs, acc =>
    if c.isDigit then parseDigits cs (10 * acc + (c.toNat - 48)) else (acc, c :: cs)

/-- The string that ends at the next double quote (code 34), `acc` holding the
characters read so far in reverse; a backslash (code 92) is refused. -/
def parseString : List Char → List Char → Option (String × List Char)
  | [], _ => none
  | c :: cs, acc =>
    if c = Char.ofNat 34 then some (String.mk acc.reverse, cs)
    else if c = Char.ofNat 92 then none
    else parseString cs (c :: acc)

mutual
/-- One JSON value at the head of the text, and the text after it. -/
def parseValue : Nat → List Char → Option (Json × List Char)
  | 0, _ => none
  | fuel + 1, cs =>
    match skipSpaces cs with
    | [] => none
    | 't' :: 'r' :: 'u' :: 'e' :: rest => some (.bool true, rest)
    | 'f' :: 'a' :: 'l' :: 's' :: 'e' :: rest => some (.bool false, rest)
    | c :: rest =>
      if c = Char.ofNat 123 then
        match skipSpaces rest with
        | [] => none
        | c' :: rest' =>
          if c' = Char.ofNat 125 then some (.object [], rest')
          else
            match parseMembers fuel (c' :: rest') with
            | some (ms, r) => some (.object ms, r)
            | none => none
      else if c = Char.ofNat 91 then
        match skipSpaces rest with
        | [] => none
        | c' :: rest' =>
          if c' = Char.ofNat 93 then some (.array [], rest')
          else
            match parseItems fuel (c' :: rest') with
            | some (js, r) => some (.array js, r)
            | none => none
      else if c = Char.ofNat 34 then
        match parseString rest [] with
        | some (s, r) => some (.string s, r)
        | none => none
      else if c.isDigit then
        some (.number (parseDigits (c :: rest) 0).1, (parseDigits (c :: rest) 0).2)
      else none
/-- The members of an object up to its closing brace (code 125). -/
def parseMembers : Nat → List Char → Option (List (String × Json) × List Char)
  | 0, _ => none
  | fuel + 1, cs =>
    match skipSpaces cs with
    | [] => none
    | c :: rest =>
      if c = Char.ofNat 34 then
        match parseString rest [] with
        | none => none
        | some (k, r1) =>
          match skipSpaces r1 with
          | [] => none
          | c1 :: r2 =>
            if c1 = Char.ofNat 58 then
              match parseValue fuel r2 with
              | none => none
              | some (v, r3) =>
                match skipSpaces r3 with
                | [] => none
                | c2 :: r4 =>
                  if c2 = Char.ofNat 44 then
                    match parseMembers fuel r4 with
                    | some (ms, r) => some ((k, v) :: ms, r)
                    | none => none
                  else if c2 = Char.ofNat 125 then some ([(k, v)], r4)
                  else none
            else none
      else none
/-- The items of an array up to its closing bracket (code 93). -/
def parseItems : Nat → List Char → Option (List Json × List Char)
  | 0, _ => none
  | fuel + 1, cs =>
    match parseValue fuel cs with
    | none => none
    | some (v, r1) =>
      match skipSpaces r1 with
      | [] => none
      | c :: r2 =>
        if c = Char.ofNat 44 then
          match parseItems fuel r2 with
          | some (js, r) => some (v :: js, r)
          | none => none
        else if c = Char.ofNat 93 then some ([v], r2)
        else none
end

/-- The JSON value a text holds, with nothing but spaces after it. -/
def parseJson (s : String) : Option Json :=
  match parseValue (s.data.length + 1) s.data with
  | some (j, rest) =>
    match skipSpaces rest with
    | [] => some j
    | _ => none
  | none => none

mutual
/-- The leaves of a value with the field path to each, `pre` being the path of the
value itself: every value that is not an object is a leaf, a sentinel included. -/
def leaves (pre : List String) : Json → List (List String × Json)
  | .object ms => leavesOfMembers pre ms
  | .number n => [(pre, .number n)]
  | .bool b => [(pre, .bool b)]
  | .string s => [(pre, .string s)]
  | .array js => [(pre, .array js)]
/-- The leaves under the members of an object at path `pre`. -/
def leavesOfMembers (pre : List String) : List (String × Json) → List (List String × Json)
  | [] => []
  | (k, v) :: rest => leaves (pre ++ [k]) v ++ leavesOfMembers pre rest
end

/-- Whether a value is the given sentinel, written as a JSON string. -/
def Json.isSentinel (name : String) : Json → Bool
  | .string s => s == name
  | _ => false

/-- The field paths of the data at which the `Delete` sentinel stands. -/
def deletePaths (j : Json) : List (List String) :=
  ((leaves [] j).filter (fun l => l.2.isSentinel "Delete")).map (fun l => l.1)

/-! ## Rendering and ordering of field paths -/

/-- Modelled from the spec: a character of `[a-zA-Z0-9_]`; the rendering of field
paths belongs to the client under test and is not among the sources. -/
def isSimpleChar (c : Char) : Bool := c.isAlphanum || c == Char.ofNat 95

/-- Modelled from the spec: a segment is quoted in backticks when it holds a
character outside `[a-zA-Z0-9_]` or starts with a digit. -/
def renderSegment (s : String) : String :=
  let startsWithDigit :=
    match s.data with
    | c :: _ => c.isDigit
    | [] => false
  if s.data.all isSimpleChar && !startsWithDigit then s else "`" ++ s ++ "`"

/-- Modelled from the spec: the canonical rendering joins the rendered segments
with dots. -/
def render (segments : List String) : String :=
  ".".intercalate (segments.map renderSegment)

/-- Rendered paths in ascending lexicographic order of their characters. -/
def sortPaths (ps : List String) : List String :=
  ps.insertionSort (fun a b => a.data ≤ b.data)

/-- The expected update mask of a request: the field paths of the mask of its first
write. -/
def CommitRequest.mask (req : CommitRequest) : Option (List String) :=
  match req.writes with
  | w :: _ => w.UpdateMask.bind (fun m => m.FieldPaths)
  | [] => none

/-- The sorted rendered leaf paths of the data of a fixture. -/
def allLeafPaths (f : String × Test) : Option (List String) :=
  (f.2.jsonData.bind parseJson).map
    (fun j => sortPaths ((leaves [] j).map (fun l => render l.1)))

/-- The sorted rendered leaf paths of the data of a fixture, the leaves holding the
`ServerTimestamp` sentinel left out. -/
def ordinaryLeafPaths (f : String × Test) : Option (List String) :=
  (f.2.jsonData.bind parseJson).map
    (fun j => sortPaths
      (((leaves [] j).filter (fun l => !l.2.isSentinel "ServerTimestamp")).map
        (fun l => render l.1)))

/-- Whether a merge field is the path `p` or a prefix of it. -/
def FieldPath.covers (fp : FieldPath) (p : List String) : Bool :=
  (fp.Field.getD []).isPrefixOf p

/-- The explicit merge fields of a set fixture: the fields of its options, none
of them merge-all. -/
def explicitMergeFields (f : String × Test) : Option (List FieldPath) :=
  match f.2.options with
  | some [opt] => if opt.All then none else opt.Fields
  | _ => none

/-- A set fixture that lists explicit merge fields and whose data holds `Delete`,
at paths outside the merge fields only. -/
def deleteOutsideMerge (f : String × Test) : Bool :=
  match explicitMergeFields f, (f.2.jsonData.bind parseJson).map deletePaths with
  | some fps, some ds => !ds.isEmpty && ds.all (fun p => fps.all (fun fp => !fp.covers p))
  | _, _ => false

/-- A fixture whose data holds `Delete` at some field path. -/
def holdsDelete (f : String × Test) : Bool :=
  match (f.2.jsonData.bind parseJson).map deletePaths with
  | some ds => !ds.isEmpty
  | none => false

/-! ## Supplied paths, masks and transforms of the update fixtures -/

/-- The timestamp `ptypes.TimestampProto` returns for `aTime`, which is
2017-01-02 03:04:05.000000006 UTC: seconds since 1970-01-01 and nanoseconds. -/
def aTimestamp : Timestamp := { Seconds := 1483326245, Nanos := 6 }

/-- The field paths an update fixture supplies, as segment lists, each with the JSON
value supplied for it: for `genUpdatePaths` the `FieldPaths` paired with the
`JsonValues`, for `genUpdate` the top-level keys of the data split on dots. -/
def supplied (f : String × Test) : List (List String × Option Json) :=
  match f.2.Test with
  | .UpdatePaths c =>
    List.zip ((c.FieldPaths.getD []).map (fun fp => fp.Field.getD []))
      ((c.JsonValues.getD []).map parseJson)
  | .Update c =>
    match parseJson c.JsonData with
    | some (.object ms) => ms.map (fun m => (stringsSplit m.1 (Char.ofNat 46), some m.2))
    | _ => []
  | _ => []

/-- The field paths an update fixture supplies, as segment lists. -/
def suppliedPaths (f : String × Test) : List (List String) :=
  (supplied f).map (fun e => e.1)

/-- Whether the value supplied for a path is directly the `ServerTimestamp` sentinel. -/
def isServerTimestamp (e : List String × Option Json) : Bool :=
  match e.2 with
  | some j => j.isSentinel "ServerTimestamp"
  | none => false

/-- The sorted renderings of all the supplied paths. -/
def allSuppliedPaths (f : String × Test) : List String :=
  sortPaths ((supplied f).map (fun e => render e.1))

/-- The sorted renderings of the supplied paths whose value is not directly the
`ServerTimestamp` sentinel. -/
def ordinarySuppliedPaths (f : String × Test) : List String :=
  sortPaths (((supplied f).filter (fun e => !isServerTimestamp e)).map (fun e => render e.1))

/-- The field paths of the transforms of a write. -/
def Write.transformPaths (w : Write) : List String :=
  match w.Operation with
  | some (.Transform d) => (d.FieldTransforms.getD []).map (fun ft => ft.FieldPath)
  | _ => []

/-- The field paths of the update mask of a write. -/
def Write.maskPaths (w : Write) : List String :=
  match w.UpdateMask with
  | some m => m.FieldPaths.getD []
  | none => []

/-- The transform field paths of a request, write after write. -/
def CommitRequest.transformPaths (req : CommitRequest) : List String :=
  (req.writes.map Write.transformPaths).flatten

/-- The `FieldPaths` field of an update-paths fixture (`nil` for the other kinds). -/
def Test.fieldPaths (t : FirestoreTests.Test) : Option (List FieldPath) :=
  match t.Test with
  | .UpdatePaths c => c.FieldPaths
  | _ => none

/-- The `JsonValues` field of an update-paths fixture (`nil` for the other kinds). -/
def Test.jsonValues (t : FirestoreTests.Test) : Option (List String) :=
  match t.Test with
  | .UpdatePaths c => c.JsonValues
  | _ => none

/-! ## Theorems -/

/-- The writes of `newCommitRequest`, case by case on which arguments are `nil`. -/
theorem newCommitRequest_writes (writeFields : Option Fields)
    (mask transform : Option (List String)) :
    (newCommitRequest writeFields mask transform).writes =
      (if writeFields.isSome || mask.isSome then [updateWrite writeFields mask] else []) ++
      (match transform with
       | none => []
       | some ps => [transformWrite ps]) := by
  cases writeFields <;> cases mask <;> cases transform <;>
    simp [newCommitRequest, CommitRequest.writes, append, updateWrite, transformWrite]

/-- C1: the write list of `newCommitRequest` holds exactly one update-write when
`writeFields` or `mask` is non-nil and none when both are nil; the empty non-nil map
that `mp()` returns and an empty non-nil mask each count as non-nil. -/
theorem newCommitRequest_update_write_count (writeFields : Option Fields)
    (mask transform : Option (List String)) :
    (newCommitRequest writeFields mask transform).writes.countP Write.isUpdate =
        (if writeFields.isSome || mask.isSome then 1 else 0)
      ∧ mp [] = some []
      ∧ (newCommitRequest (some []) none transform).writes.countP Write.isUpdate = 1
      ∧ (newCommitRequest none (some []) transform).writes.countP Write.isUpdate = 1
      ∧ (newCommitRequest none none transform).writes.countP Write.isUpdate = 0 := by
  refine ⟨?_, rfl, ?_, ?_, ?_⟩ <;> rw [newCommitRequest_writes] <;>
    cases transform <;> (try cases writeFields) <;> (try cases mask) <;>
    simp [mp, mpLoop, updateWrite, transformWrite, Write.isUpdate, List.countP_cons]

/-- C2, as stated, fails: an empty but non-nil transform list still yields a
transform-write (one with no field transform). -/
theorem newCommitRequest_empty_transform_counterexample :
    (newCommitRequest none none (some [])).writes =
        [{ Operation := some (.Transform { Document := docPath, FieldTransforms := none }) }]
      ∧ (newCommitRequest none none (some [])).writes.countP Write.isTransform ≠ 0 := by
  constructor
  · rfl
  · decide

/-- C2, amended: `newCommitRequest` emits a transform-write exactly when the transform
list is non-nil: none for a nil list, exactly one for every non-nil list, the empty one
included, so exactly one for every list with at least one element. -/
theorem newCommitRequest_transform_write_count (writeFields : Option Fields)
    (mask transform : Option (List String)) :
    (newCommitRequest writeFields mask transform).writes.countP Write.isTransform =
        (if transform.isSome then 1 else 0)
      ∧ (newCommitRequest writeFields mask none).writes.countP Write.isTransform = 0
      ∧ (∀ p ps, (newCommitRequest writeFields mask (some (p :: ps))).writes.countP
            Write.isTransform = 1) := by
  refine ⟨?_, ?_, ?_⟩ <;> intros <;> rw [newCommitRequest_writes] <;>
    (try cases transform) <;> cases writeFields <;> cases mask <;>
    simp [updateWrite, transformWrite, Write.isTransform, List.countP_cons]

/-- C3: `newCommitRequest` returns at most two writes, and when the list holds both an
update-write and a transform-write it is the update-write at index 0 followed by the
transform-write at index 1, never the reverse. -/
theorem newCommitRequest_write_order (writeFields : Option Fields)
    (mask transform : Option (List String)) :
    (newCommitRequest writeFields mask transform).writes.length ≤ 2
      ∧ ((newCommitRequest writeFields mask transform).writes.any Write.isUpdate = true →
         (newCommitRequest writeFields mask transform).writes.any Write.isTransform = true →
         ∃ u t, (newCommitRequest writeFields mask transform).writes = [u, t]
           ∧ u.isUpdate = true ∧ u.isTransform = false
           ∧ t.isTransform = true ∧ t.isUpdate = false) := by
  rw [newCommitRequest_writes]
  cases writeFields <;> cases mask <;> cases transform <;>
    simp [updateWrite, transformWrite, Write.isTransform, Write.isUpdate] <;>
    exact ⟨_, _, ⟨rfl, rfl⟩, rfl, rfl, rfl, rfl⟩

/-- C4: a present-but-empty mask differs from an absent one: with nil fields and an
empty non-nil mask the request has an update-write whose UpdateMask is present with
zero field paths, with nil fields and a nil mask it has no update-write; in general an
update-write carries an UpdateMask iff `mask` is non-nil, with `mask` itself as its
FieldPaths. -/
theorem newCommitRequest_mask_presence (writeFields : Option Fields)
    (mask transform : Option (List String)) :
    (newCommitRequest none (some []) transform).writes.filter Write.isUpdate =
        [{ Operation := some (.Update { Name := docPath, Fields := none }),
           UpdateMask := some { FieldPaths := some [] } }]
      ∧ (newCommitRequest none none transform).writes.filter Write.isUpdate = []
      ∧ (∀ w ∈ (newCommitRequest writeFields mask transform).writes, w.isUpdate = true →
          (w.UpdateMask.isSome = mask.isSome)
            ∧ w.UpdateMask = mask.map (fun l => { FieldPaths := some l })) := by
  refine ⟨?_, ?_, ?_⟩ <;> rw [newCommitRequest_writes] <;>
    cases transform <;> (try cases writeFields) <;> (try cases mask) <;>
    simp [updateWrite, transformWrite, Write.isUpdate, List.filter_cons]

/-- In the range of Go's `int` the conversion `int64` changes nothing. -/
theorem int64_of_isInt (i : Int) (h : isInt i = true) : int64 i = i := by
  simp only [isInt, Bool.and_eq_true, decide_eq_true_eq] at h
  obtain ⟨h1, h2⟩ := h
  norm_num at h1 h2
  unfold int64
  norm_num
  omega

/-- Assigning a key the map does not hold appends the entry. -/
theorem mapAssign_of_not_mem (m : Fields) (k : String) (v : Value)
    (h : ∀ e ∈ m, e.1 ≠ k) : mapAssign m k v = m ++ [(k, v)] := by
  induction m with
  | nil => rfl
  | cons e rest ih =>
    obtain ⟨k', v'⟩ := e
    have hk : k' ≠ k := h (k', v') (List.mem_cons_self _ _)
    have hr : ∀ e ∈ rest, e.1 ≠ k := fun e he => h e (List.mem_cons_of_mem _ he)
    simp [mapAssign, hk, ih hr]

mutual
/-- A well-formed node encodes, and `val` of the argument decodes back to the node. -/
theorem encodeArg_spec : (v : ValueNode) → v.wellFormed = true →
    ∃ a x, encodeArg v = some a ∧ val a = some x ∧ decodeValue x = v
  | .integer i, h => by
    simp only [ValueNode.wellFormed] at h
    exact ⟨.int i, intval i, rfl, rfl, by simp [intval, int64_of_isInt i h, decodeValue]⟩
  | .boolean b, _ => ⟨.bool b, boolval b, rfl, rfl, rfl⟩
  | .map es, h => by
    simp only [ValueNode.wellFormed] at h
    obtain ⟨args, hargs, hloop⟩ := encodeArgs_spec es h
    obtain ⟨m, hm, hdec⟩ := hloop [] (by simp)
    refine ⟨.map (some m), mapval (some m), ?_, rfl, ?_⟩
    · simp only [encodeArg, hargs, mp]
      simp at hm
      simp [hm]
    · simp [mapval, decodeValue, hdec]
/-- Well-formed entries encode, and `mp` run on them from a map with none of their
keys appends entries that decode back to them. -/
theorem encodeArgs_spec : (es : List (String × ValueNode)) → wellFormedEntries es = true →
    ∃ args, encodeArgs es = some args ∧
      ∀ acc : Fields, (∀ e ∈ acc, ∀ f ∈ es, e.1 ≠ f.1) →
        ∃ m, mpLoop args acc = some (acc ++ m) ∧ decodeFields m = es
  | [], _ => ⟨[], rfl, fun acc _ => ⟨[], by simp [mpLoop], rfl⟩⟩
  | (k, v) :: rest, h => by
    simp only [wellFormedEntries, Bool.and_eq_true, List.all_eq_true, bne_iff_ne, ne_eq] at h
    obtain ⟨⟨hk, hv⟩, hrest⟩ := h
    obtain ⟨a, x, ha, hx, hdx⟩ := encodeArg_spec v hv
    obtain ⟨as, has, hloop⟩ := encodeArgs_spec rest hrest
    refine ⟨.string k :: a :: as, by simp [encodeArgs, ha, has], ?_⟩
    intro acc hacc
    have hnew : ∀ e ∈ acc, e.1 ≠ k := fun e he => hacc e he (k, v) (List.mem_cons_self _ _)
    obtain ⟨m, hm, hdm⟩ := hloop (acc ++ [(k, x)]) (by
      intro e he f hf
      rcases List.mem_append.mp he with he | he
      · exact hacc e he f (List.mem_cons_of_mem _ hf)
      · simp only [List.mem_singleton] at he
        subst he
        exact fun hc => hk f hf hc.symm)
    refine ⟨(k, x) :: m, ?_, by simp [decodeFields, hdx, hdm]⟩
    simp [mpLoop, hx, mapAssign_of_not_mem acc k x hnew, hm]
end

/-- C5: a well-formed sentinel-free tree, encoded through `mp` and `val` and assembled
with nil mask and nil transforms, gives a single update-write whose fields decode back
to the tree; `val` is injective on arguments in the range of `int`, and `int64` is the
identity on that range. -/
theorem create_round_trip (t : List (String × ValueNode)) (h : wellFormedEntries t = true) :
    (∃ m w, encode t = some m
        ∧ (newCommitRequest (some m) none none).writes = [w]
        ∧ w.isUpdate = true ∧ w.UpdateMask = none
        ∧ w.updateFields = some m
        ∧ decodeFields m = t)
      ∧ (∀ a b : Arg, a.inRange = true → b.inRange = true → val a ≠ none →
          val a = val b → a = b)
      ∧ (∀ i : Int, isInt i = true → int64 i = i) := by
  refine ⟨?_, ?_, int64_of_isInt⟩
  · obtain ⟨args, hargs, hloop⟩ := encodeArgs_spec t h
    obtain ⟨m, hm, hdm⟩ := hloop [] (by simp)
    simp only [List.nil_append] at hm
    refine ⟨m, updateWrite (some m) none, ?_, ?_, rfl, rfl, rfl, hdm⟩
    · simp [encode, hargs, mp, hm]
    · rw [newCommitRequest_writes]
      simp
  · intro a b ha hb hne hab
    cases a <;> cases b <;> simp [val, intval, boolval, mapval] at hne hab
    · simp only [Arg.inRange] at ha hb
      rw [int64_of_isInt _ ha, int64_of_isInt _ hb] at hab
      rw [hab]
    · rw [hab]
    · rw [hab]

/-- C5 at the tree `{"a": 1, "b": {"c": true}}`. -/
theorem create_round_trip_witness :
    wellFormedEntries
        [("a", .integer 1), ("b", .map [("c", .boolean true)])] = true
      ∧ ∃ m w, encode [("a", .integer 1), ("b", .map [("c", .boolean true)])] = some m
        ∧ (newCommitRequest (some m) none none).writes = [w]
        ∧ w.isUpdate = true ∧ w.UpdateMask = none
        ∧ w.updateFields = some m
        ∧ decodeFields m = [("a", .integer 1), ("b", .map [("c", .boolean true)])] :=
  ⟨by decide, (create_round_trip _ (by decide)).1⟩

/-- A check evaluated on the list a generator returns holds of each fixture. -/
theorem forall_of_all {α : Type} (o : Option (List α)) (p : α → Bool)
    (hall : (o.getD []).all p = true) (l : List α) (h : o = some l) :
    ∀ f ∈ l, p f = true := by
  subst h
  exact fun f hf => List.all_eq_true.mp hall f hf

/-- Each element a loop returns comes from one run of its body. -/
theorem forRange_mem {ρ τ : Type} (body : Nat → ρ → Option τ) :
    ∀ (rows : List ρ) (i : Nat) (l : List τ), forRange body i rows = some l →
      ∀ t ∈ l, ∃ j, ∃ r ∈ rows, body j r = some t
  | [], _, l, h => by
    simp only [forRange, Option.some.injEq] at h
    subst h
    simp
  | r :: rs, i, l, h => by
    simp only [forRange] at h
    cases hb : body i r with
    | none => simp [hb] at h
    | some t0 =>
      simp only [hb, Option.map_eq_some'] at h
      obtain ⟨l', hl', rfl⟩ := h
      intro t ht
      rcases List.mem_cons.mp ht with rfl | ht
      · exact ⟨i, r, List.mem_cons_self _ _, hb⟩
      · obtain ⟨j, r', hr', hj⟩ := forRange_mem body rs (i + 1) l' hl' t ht
        exact ⟨j, r', List.mem_cons_of_mem _ hr', hj⟩

/-- The first write of an update request carries the row's precondition, or
`existsTruePrecondition` when the row has none. -/
theorem updateRequest_first (write : Option Fields) (mask transform : Option (List String))
    (precond : Option Precondition) (req : CommitRequest)
    (h : updateRequest write mask transform precond = some req) :
    ∃ w ws, req.Writes = some (w :: ws) ∧
      w.CurrentDocument = if precond.isSome then precond else existsTruePrecondition := by
  unfold updateRequest setFirstCurrentDocument at h
  cases hw : (newCommitRequest write mask transform).Writes with
  | none => simp [hw] at h
  | some ws =>
    cases ws with
    | nil => simp [hw] at h
    | cons w ws =>
      cases hp : precond.isSome <;> simp [hw, hp] at h <;> subst h <;>
        exact ⟨_, _, rfl, by simp⟩

/-- C6: every fixture of `genCreate`, `genSet`, `genUpdate` and `genUpdatePaths` has a
nil request if and only if its `IsError` flag is true; the four generators run to the
end. -/
theorem fixture_request_nil_iff_error (aTimestamp : Timestamp) :
    ∃ c s u p, genCreate = some c ∧ genSet = some s
      ∧ genUpdate (mainUpdateTimePrecondition aTimestamp) = some u
      ∧ genUpdatePaths (mainUpdateTimePrecondition aTimestamp) = some p
      ∧ ∀ f ∈ c ++ s ++ u ++ p, (f.2.request = none ↔ f.2.isError = true) := by
  obtain ⟨c, hc⟩ := Option.isSome_iff_exists.mp (show genCreate.isSome = true from rfl)
  obtain ⟨s, hs⟩ := Option.isSome_iff_exists.mp (show genSet.isSome = true from rfl)
  obtain ⟨u, hu⟩ := Option.isSome_iff_exists.mp
    (show (genUpdate (mainUpdateTimePrecondition aTimestamp)).isSome = true from rfl)
  obtain ⟨p, hp⟩ := Option.isSome_iff_exists.mp
    (show (genUpdatePaths (mainUpdateTimePrecondition aTimestamp)).isSome = true from rfl)
  refine ⟨c, s, u, p, hc, hs, hu, hp, ?_⟩
  have key : ∀ f : String × Test, requestNilIffError f = true →
      (f.2.request = none ↔ f.2.isError = true) := by
    intro f h
    unfold requestNilIffError at h
    cases hr : f.2.request <;> cases he : f.2.isError <;> simp [hr, he] at h ⊢
  intro f hf
  simp only [List.mem_append] at hf
  apply key
  rcases hf with ((hf | hf) | hf) | hf
  · exact forall_of_all genCreate requestNilIffError rfl c hc f hf
  · exact forall_of_all genSet requestNilIffError rfl s hs f hf
  · exact forall_of_all (genUpdate (mainUpdateTimePrecondition aTimestamp))
      requestNilIffError rfl u hu f hf
  · exact forall_of_all (genUpdatePaths (mainUpdateTimePrecondition aTimestamp))
      requestNilIffError rfl p hp f hf

/-- What `updateFirst` checks, spelled out. -/
theorem updateFirst_spec (req : CommitRequest) (h : updateFirst req = true) :
    ∃ w ws, req.Writes = some (w :: ws) ∧ w.isUpdate = true ∧
      ∀ w' ∈ ws, w'.isTransform = true ∧ w'.CurrentDocument = none := by
  unfold updateFirst at h
  cases hw : req.Writes with
  | none => simp [hw] at h
  | some l =>
    cases l with
    | nil => simp [hw] at h
    | cons w ws =>
      simp only [hw, Bool.and_eq_true, List.all_eq_true, Option.isNone_iff_eq_none] at h
      exact ⟨w, ws, rfl, h.1, h.2⟩

/-- C7: every non-error fixture of `genCreate` has a request whose first write exists,
is the update-write, has no update mask and carries the precondition exists=false, and
whose later writes are transform-writes without a precondition; the first fixture, for
the data `{"a": 1}`, has the single update-write with fields `{a: 1}`. -/
theorem genCreate_first_write :
    ∃ c, genCreate = some c
      ∧ (∀ f ∈ c, f.2.isError = false →
          ∃ req w ws, f.2.request = some req ∧ req.Writes = some (w :: ws)
            ∧ w.isUpdate = true ∧ w.UpdateMask = none
            ∧ w.CurrentDocument = some (.Exists false)
            ∧ ∀ w' ∈ ws, w'.isTransform = true ∧ w'.CurrentDocument = none)
      ∧ (c.head?.map (fun f => f.2.jsonData)) = some (some "\x7b\"a\": 1\x7d")
      ∧ (c.head?.map (fun f => f.2.request)) = some (some
          { Database := database,
            Writes := some [
              { Operation := some (.Update
                  { Name := docPath, Fields := some [("a", .IntegerValue 1)] }),
                UpdateMask := none,
                CurrentDocument := some (.Exists false) }] }) := by
  obtain ⟨c, hc⟩ := Option.isSome_iff_exists.mp (show genCreate.isSome = true from rfl)
  refine ⟨c, hc, ?_, ?_, ?_⟩
  · intro f hf he
    have h := forall_of_all genCreate createCheck (by decide) c hc f hf
    simp only [createCheck, he, Bool.false_or] at h
    cases hr : f.2.request with
    | none => simp [hr] at h
    | some req =>
      simp only [hr, Bool.and_eq_true] at h
      obtain ⟨w, ws, hw, hu, ht⟩ := updateFirst_spec req h.1
      have h2 := h.2
      simp only [hw, Bool.and_eq_true, Option.isNone_iff_eq_none, decide_eq_true_eq] at h2
      exact ⟨req, w, ws, rfl, hw, hu, h2.1, h2.2, ht⟩
  · have h : (genCreate.getD []).head?.map (fun f => f.2.jsonData) =
        some (some "\x7b\"a\": 1\x7d") := by decide
    rw [hc] at h
    exact h
  · have h : (genCreate.getD []).head?.map (fun f => f.2.request) = some (some
          { Database := database,
            Writes := some [
              { Operation := some (.Update
                  { Name := docPath, Fields := some [("a", .IntegerValue 1)] }),
                UpdateMask := none,
                CurrentDocument := some (.Exists false) }] }) := rfl
    rw [hc] at h
    exact h

/-- A fixture built by the body of `genUpdate` has its precondition, or
`existsTruePrecondition` without one, on the first write of its request. -/
theorem genUpdateBody_first (i : Nat) (r : UpdateRow) (f : String × Test)
    (h : genUpdateBody i r = some f) (req : CommitRequest) (hreq : f.2.request = some req) :
    ∃ w ws, req.Writes = some (w :: ws) ∧
      w.CurrentDocument =
        if f.2.precondition.isSome then f.2.precondition else existsTruePrecondition := by
  unfold genUpdateBody at h
  cases he : r.isErr
  · cases hu : updateRequest r.write r.mask r.transform r.precond with
    | none => simp [he, hu] at h
    | some req' =>
      simp [he, hu] at h
      subst h
      simp only [Test.request, Option.some.injEq] at hreq
      subst hreq
      exact updateRequest_first _ _ _ _ _ hu
  · simp [he] at h
    subst h
    simp [Test.request] at hreq

/-- A fixture built by the body of `genUpdatePaths` has its precondition, or
`existsTruePrecondition` without one, on the first write of its request. -/
theorem genUpdatePathsBody_first (i : Nat) (r : UpdatePathsRow) (f : String × Test)
    (h : genUpdatePathsBody i r = some f) (req : CommitRequest)
    (hreq : f.2.request = some req) :
    ∃ w ws, req.Writes = some (w :: ws) ∧
      w.CurrentDocument =
        if f.2.precondition.isSome then f.2.precondition else existsTruePrecondition := by
  unfold genUpdatePathsBody at h
  cases he : r.isErr
  · cases hu : updateRequest r.write r.mask r.transform r.precond with
    | none => simp [he, hu] at h
    | some req' =>
      simp [he, hu] at h
      subst h
      simp only [Test.request, Option.some.injEq] at hreq
      subst hreq
      exact updateRequest_first _ _ _ _ _ hu
  · simp [he] at h
    subst h
    simp [Test.request] at hreq

/-- C8: every non-error fixture of `genUpdate` and `genUpdatePaths` has a request
whose first write exists and is the update-write, under the precondition exists=true
unless the row supplies a last-update-time precondition, which is then the one it
carries; the later writes are transform-writes without a precondition; every row with
an exists precondition is an error fixture. Row 8 of `genUpdate` and row 4 of
`genUpdatePaths` are the non-error rows with a last-update-time precondition, row 19
and row 14 the rows with an exists precondition. -/
theorem update_first_write (aTimestamp : Timestamp) :
    ∃ u p, genUpdate (mainUpdateTimePrecondition aTimestamp) = some u
      ∧ genUpdatePaths (mainUpdateTimePrecondition aTimestamp) = some p
      ∧ (∀ f ∈ u ++ p,
          (f.2.isError = false →
            ∃ req w ws, f.2.request = some req ∧ req.Writes = some (w :: ws)
              ∧ w.isUpdate = true
              ∧ w.CurrentDocument =
                  (match f.2.precondition with
                   | some (.UpdateTime t) => some (.UpdateTime t)
                   | _ => some (.Exists true))
              ∧ ∀ w' ∈ ws, w'.isTransform = true ∧ w'.CurrentDocument = none)
          ∧ (∀ b, f.2.precondition = some (.Exists b) → f.2.isError = true))
      ∧ u[7]?.map (fun f => (f.2.isError, f.2.precondition)) =
          some (false, some (.UpdateTime aTimestamp))
      ∧ p[3]?.map (fun f => (f.2.isError, f.2.precondition)) =
          some (false, some (.UpdateTime aTimestamp))
      ∧ u[18]?.map (fun f => (f.2.isError, f.2.precondition)) =
          some (true, some (.Exists true))
      ∧ p[13]?.map (fun f => (f.2.isError, f.2.precondition)) =
          some (true, some (.Exists true)) := by
  obtain ⟨u, hu⟩ := Option.isSome_iff_exists.mp
    (show (genUpdate (mainUpdateTimePrecondition aTimestamp)).isSome = true from rfl)
  obtain ⟨p, hp⟩ := Option.isSome_iff_exists.mp
    (show (genUpdatePaths (mainUpdateTimePrecondition aTimestamp)).isSome = true from rfl)
  have hfirst : ∀ f ∈ u ++ p, ∀ req, f.2.request = some req →
      ∃ w ws, req.Writes = some (w :: ws) ∧
        w.CurrentDocument =
          if f.2.precondition.isSome then f.2.precondition else existsTruePrecondition := by
    intro f hf req hreq
    rcases List.mem_append.mp hf with hf | hf
    · unfold genUpdate at hu
      obtain ⟨table, -, hl⟩ := Option.bind_eq_some.mp hu
      obtain ⟨j, r, -, hb⟩ := forRange_mem genUpdateBody table 0 u hl f hf
      exact genUpdateBody_first j r f hb req hreq
    · unfold genUpdatePaths at hp
      obtain ⟨table, -, hl⟩ := Option.bind_eq_some.mp hp
      obtain ⟨j, r, -, hb⟩ := forRange_mem genUpdatePathsBody table 0 p hl f hf
      exact genUpdatePathsBody_first j r f hb req hreq
  have hcheck : ∀ f ∈ u ++ p, updateCheck f = true := by
    intro f hf
    rcases List.mem_append.mp hf with hf | hf
    · exact forall_of_all (genUpdate (mainUpdateTimePrecondition aTimestamp))
        updateCheck rfl u hu f hf
    · exact forall_of_all (genUpdatePaths (mainUpdateTimePrecondition aTimestamp))
        updateCheck rfl p hp f hf
  refine ⟨u, p, hu, hp, ?_, ?_, ?_, ?_, ?_⟩
  · intro f hf
    have hc := hcheck f hf
    unfold updateCheck at hc
    constructor
    · intro he
      cases hr : f.2.request with
      | none =>
        cases hpre : f.2.precondition with
        | none => simp [hpre, he, hr] at hc
        | some q => cases q <;> simp [hpre, he, hr] at hc
      | some req =>
        obtain ⟨w, ws, hw, hcur⟩ := hfirst f hf req hr
        cases hpre : f.2.precondition with
        | none =>
          simp only [hpre, he, hr, Bool.false_or] at hc
          obtain ⟨w2, ws2, hw2, hup, htr⟩ := updateFirst_spec req hc
          rw [hw] at hw2
          simp only [Option.some.injEq, List.cons.injEq] at hw2
          obtain ⟨rfl, rfl⟩ := hw2
          refine ⟨req, w, ws, rfl, hw, hup, ?_, htr⟩
          rw [hcur, hpre]
          rfl
        | some q =>
          cases q with
          | Exists b => simp [hpre, he] at hc
          | UpdateTime t =>
            simp only [hpre, he, hr, Bool.false_or] at hc
            obtain ⟨w2, ws2, hw2, hup, htr⟩ := updateFirst_spec req hc
            rw [hw] at hw2
            simp only [Option.some.injEq, List.cons.injEq] at hw2
            obtain ⟨rfl, rfl⟩ := hw2
            refine ⟨req, w, ws, rfl, hw, hup, ?_, htr⟩
            rw [hcur, hpre]
            rfl
    · intro b hb
      simpa [hb] using hc
  · have h : ((genUpdate (mainUpdateTimePrecondition aTimestamp)).getD [])[7]?.map
        (fun f => (f.2.isError, f.2.precondition)) =
          some (false, some (.UpdateTime aTimestamp)) := rfl
    rw [hu] at h
    exact h
  · have h : ((genUpdatePaths (mainUpdateTimePrecondition aTimestamp)).getD [])[3]?.map
        (fun f => (f.2.isError, f.2.precondition)) =
          some (false, some (.UpdateTime aTimestamp)) := rfl
    rw [hp] at h
    exact h
  · have h : ((genUpdate (mainUpdateTimePrecondition aTimestamp)).getD [])[18]?.map
        (fun f => (f.2.isError, f.2.precondition)) =
          some (true, some (.Exists true)) := rfl
    rw [hu] at h
    exact h
  · have h : ((genUpdatePaths (mainUpdateTimePrecondition aTimestamp)).getD [])[13]?.map
        (fun f => (f.2.isError, f.2.precondition)) =
          some (true, some (.Exists true)) := rfl
    rw [hp] at h
    exact h

/-- C9, as stated, fails: fixture 19 of `genSet` lists the explicit merge field `a`,
its data `{"a": 1, "b": "Delete"}` holds `Delete` only at `b`, outside the merge
fields, and it is an error fixture. -/
theorem genSet_delete_outside_merge_counterexample :
    (genSet.getD [])[18]?.map (fun f => f.2.jsonData) =
        some (some "\x7b\"a\": 1, \"b\": \"Delete\"\x7d")
      ∧ (genSet.getD [])[18]?.map explicitMergeFields = some (some [{ Field := some ["a"] }])
      ∧ (genSet.getD [])[18]?.map (fun f => (f.2.jsonData.bind parseJson).map deletePaths) =
          some (some [["b"]])
      ∧ FieldPath.covers { Field := some ["a"] } ["b"] = false
      ∧ (genSet.getD [])[18]?.map (fun f => f.2.isError) = some true
      ∧ ¬ (∀ f ∈ genSet.getD [], deleteOutsideMerge f = true → f.2.isError = false) := by
  refine ⟨by decide, by decide, by decide, by decide, by decide, by decide⟩

/-- C9, amended: every fixture of `genSet` whose data holds `Delete` is an error
fixture without a request, also when it lists explicit merge fields and the `Delete`
stands outside them, as fixture 19 does. -/
theorem genSet_delete_is_error :
    ∃ s, genSet = some s
      ∧ (∀ f ∈ s, holdsDelete f = true → f.2.isError = true ∧ f.2.request.isNone = true)
      ∧ (∃ f ∈ s, deleteOutsideMerge f = true ∧ holdsDelete f = true) := by
  obtain ⟨s, hs⟩ := Option.isSome_iff_exists.mp (show genSet.isSome = true from rfl)
  have h : (∀ f ∈ genSet.getD [],
        holdsDelete f = true → f.2.isError = true ∧ f.2.request.isNone = true)
      ∧ (∃ f ∈ genSet.getD [], deleteOutsideMerge f = true ∧ holdsDelete f = true) := by
    decide
  rw [hs] at h
  exact ⟨s, hs, h⟩

/-- C10, as stated, fails: fixture 12 of `genSet` is a non-error merge-all row with
data `{"a": 1, "b": "ServerTimestamp"}`, whose leaf paths are `a` and `b`, and its
expected mask is `a` alone. -/
theorem genSet_merge_all_counterexample :
    (genSet.getD [])[11]?.map (fun f => f.2.jsonData) =
        some (some "\x7b\"a\": 1, \"b\": \"ServerTimestamp\"\x7d")
      ∧ (genSet.getD [])[11]?.map (fun f => f.2.isError) = some false
      ∧ (genSet.getD [])[11]?.map (fun f => f.2.options) = some (some [{ All := true }])
      ∧ (genSet.getD [])[11]?.map (fun f => f.2.request.bind CommitRequest.mask) =
          some (some ["a"])
      ∧ (genSet.getD [])[11]?.map allLeafPaths = some (some ["a", "b"])
      ∧ ¬ (∀ f ∈ genSet.getD [], f.2.isError = false → f.2.options = some [{ All := true }] →
            f.2.request.bind CommitRequest.mask = allLeafPaths f) := by
  refine ⟨by decide, by decide, by decide, by decide, by decide, by decide⟩

/-- C10, amended: for every non-error merge-all fixture of `genSet` the expected
update mask is the sorted list of the rendered leaf paths of the data, the leaves
that hold the `ServerTimestamp` sentinel left out; fixtures 4 and 12, with the data
`{"h": { "g": 3, "f": 4 }}` and `{"a": 1, "b": "ServerTimestamp"}`, are such fixtures
and have the masks `[h.f, h.g]` and `[a]`. -/
theorem genSet_merge_all_mask :
    ∃ s, genSet = some s
      ∧ (∀ f ∈ s, f.2.isError = false → f.2.options = some [{ All := true }] →
          (ordinaryLeafPaths f).isSome = true
            ∧ f.2.request.bind CommitRequest.mask = ordinaryLeafPaths f)
      ∧ s[3]?.map (fun f => f.2.jsonData) =
          some (some "\x7b\"h\": \x7b \"g\": 3, \"f\": 4 \x7d\x7d")
      ∧ s[3]?.map (fun f => f.2.isError) = some false
      ∧ s[3]?.map (fun f => f.2.options) = some (some [{ All := true }])
      ∧ s[3]?.map (fun f => f.2.request.bind CommitRequest.mask) = some (some ["h.f", "h.g"])
      ∧ s[11]?.map (fun f => f.2.jsonData) =
          some (some "\x7b\"a\": 1, \"b\": \"ServerTimestamp\"\x7d")
      ∧ s[11]?.map (fun f => f.2.isError) = some false
      ∧ s[11]?.map (fun f => f.2.options) = some (some [{ All := true }])
      ∧ s[11]?.map (fun f => f.2.request.bind CommitRequest.mask) = some (some ["a"]) := by
  obtain ⟨s, hs⟩ := Option.isSome_iff_exists.mp (show genSet.isSome = true from rfl)
  have h1 : ∀ f ∈ genSet.getD [], f.2.isError = false →
      f.2.options = some [{ All := true }] →
        (ordinaryLeafPaths f).isSome = true
          ∧ f.2.request.bind CommitRequest.mask = ordinaryLeafPaths f := by
    decide
  have h2 : (genSet.getD [])[3]?.map (fun f => f.2.jsonData) =
      some (some "\x7b\"h\": \x7b \"g\": 3, \"f\": 4 \x7d\x7d") := by decide
  have h3 : (genSet.getD [])[3]?.map (fun f => f.2.isError) = some false := by decide
  have h4 : (genSet.getD [])[3]?.map (fun f => f.2.options) =
      some (some [{ All := true }]) := by decide
  have h5 : (genSet.getD [])[3]?.map (fun f => f.2.request.bind CommitRequest.mask) =
      some (some ["h.f", "h.g"]) := by decide
  have h6 : (genSet.getD [])[11]?.map (fun f => f.2.jsonData) =
      some (some "\x7b\"a\": 1, \"b\": \"ServerTimestamp\"\x7d") := by decide
  have h7 : (genSet.getD [])[11]?.map (fun f => f.2.isError) = some false := by decide
  have h8 : (genSet.getD [])[11]?.map (fun f => f.2.options) =
      some (some [{ All := true }]) := by decide
  have h9 : (genSet.getD [])[11]?.map (fun f => f.2.request.bind CommitRequest.mask) =
      some (some ["a"]) := by decide
  rw [hs] at h1 h2 h3 h4 h5 h6 h7 h8 h9
  exact ⟨s, hs, h1, h2, h3, h4, h5, h6, h7, h8, h9⟩

/-- A loop that appends one element per item builds the mapped list after the
elements the slice had. -/
theorem foldl_append {α β : Type} (g : α → β) (l : List α) (acc : Option (List β)) :
    (l.foldl (fun s x => append s (g x)) acc).getD [] = acc.getD [] ++ l.map g := by
  induction l generalizing acc with
  | nil => simp
  | cons x xs ih =>
    rw [List.foldl_cons, ih]
    simp [append]

/-- C14: `toFieldPaths` keeps the segment lists as they are: the result has the length
of `fps`, its i-th field path holds the i-th segment list unchanged, so a segment with
a dot stays one segment; `mergePathsOption` stores that result, and
`toFieldPaths(nil)` is nil. -/
theorem toFieldPaths_literal (fps : Option (List (Option (List String)))) :
    (toFieldPaths fps).getD [] = (fps.getD []).map (fun fp => { Field := fp })
      ∧ ((toFieldPaths fps).getD []).length = (fps.getD []).length
      ∧ (∀ i : Nat, ((toFieldPaths fps).getD [])[i]?.map (fun p => p.Field) = (fps.getD [])[i]?)
      ∧ (mergePathsOption fps).Fields = toFieldPaths fps
      ∧ toFieldPaths none = none
      ∧ toFieldPaths (some [some ["a.b", "f.g"]]) = some [{ Field := some ["a.b", "f.g"] }] := by
  have h : (toFieldPaths fps).getD [] = (fps.getD []).map (fun fp => { Field := fp }) := by
    unfold toFieldPaths
    rw [foldl_append]
    simp
  refine ⟨h, ?_, ?_, rfl, rfl, rfl⟩
  · rw [h, List.length_map]
  · intro i
    rw [h, List.getElem?_map, Option.map_map]
    cases (fps.getD [])[i]? <;> rfl

/-- C18: for a non-nil transform list `t` the transform-write of `newCommitRequest`
is the only one, targets `docPath`, carries neither mask nor precondition, and has one
field transform per element of `t`, in order, the i-th with field path `t[i]` and the
transform set-to-server-value `REQUEST_TIME`. -/
theorem newCommitRequest_field_transforms (writeFields : Option Fields)
    (mask : Option (List String)) (t : List String) :
    ∃ d : DocumentTransform,
      (newCommitRequest writeFields mask (some t)).writes.filter Write.isTransform =
          [{ Operation := some (.Transform d) }]
        ∧ d.Document = docPath
        ∧ (d.FieldTransforms.getD []).length = t.length
        ∧ d.FieldTransforms.getD [] =
            t.map (fun p => { FieldPath := p, TransformType := .SetToServerValue .REQUEST_TIME })
        ∧ (∀ i : Nat, (d.FieldTransforms.getD [])[i]?.map (fun ft => ft.FieldPath) = t[i]?)
        ∧ (∀ ft ∈ d.FieldTransforms.getD [],
            ft.TransformType = .SetToServerValue .REQUEST_TIME) := by
  have hfts : ((t.foldl
        (fun fts p => append fts
          ({ FieldPath := p, TransformType := .SetToServerValue .REQUEST_TIME } :
            FieldTransform))
        none).getD []) =
      t.map (fun p => { FieldPath := p, TransformType := .SetToServerValue .REQUEST_TIME }) := by
    rw [foldl_append]
    simp
  refine ⟨⟨docPath, t.foldl
        (fun fts p => append fts
          { FieldPath := p, TransformType := .SetToServerValue .REQUEST_TIME }) none⟩,
    ?_, rfl, ?_, hfts, ?_, ?_⟩
  · rw [newCommitRequest_writes]
    cases writeFields <;> cases mask <;>
      simp [updateWrite, transformWrite, Write.isTransform, List.filter_cons]
  · rw [hfts, List.length_map]
  · intro i
    rw [hfts, List.getElem?_map, Option.map_map]
    cases t[i]? <;> rfl
  · intro ft hft
    rw [hfts] at hft
    obtain ⟨p, -, rfl⟩ := List.mem_map.mp hft
    rfl

/-- A split has at least one piece. -/
theorem splitChars_ne_nil (sep : Char) (cs : List Char) : splitChars sep cs ≠ [] := by
  induction cs with
  | nil => simp [splitChars]
  | cons c cs ih =>
    unfold splitChars
    split_ifs
    · simp
    · cases h : splitChars sep cs <;> simp

/-- Splitting at a separator splits both sides and puts the pieces one after the
other. -/
theorem splitChars_append (sep : Char) (xs ys : List Char) :
    splitChars sep (xs ++ sep :: ys) = splitChars sep xs ++ splitChars sep ys := by
  induction xs with
  | nil => simp [splitChars]
  | cons c cs ih =>
    by_cases hc : c = sep
    · simp [splitChars, hc, ih]
    · cases h : splitChars sep cs with
      | nil => exact absurd h (splitChars_ne_nil sep cs)
      | cons seg rest => simp [splitChars, hc, ih, h]

/-- No piece of a split holds the separator. -/
theorem splitChars_no_sep (sep : Char) (cs : List Char) :
    ∀ seg ∈ splitChars sep cs, sep ∉ seg := by
  induction cs with
  | nil => simp [splitChars]
  | cons c cs ih =>
    by_cases hc : c = sep
    · simp only [splitChars, hc, if_true, List.mem_cons]
      rintro seg (rfl | h)
      · simp
      · exact ih seg h
    · cases h : splitChars sep cs with
      | nil => exact absurd h (splitChars_ne_nil sep cs)
      | cons seg rest =>
        rw [h] at ih
        simp only [splitChars, hc, if_false, h, List.mem_cons]
        rintro s (rfl | hs)
        · have := ih seg (List.mem_cons_self _ _)
          simp only [List.mem_cons, not_or]
          exact ⟨fun e => hc e.symm, this⟩
        · exact ih s (List.mem_cons_of_mem _ hs)

/-- A split has one piece more than the text has separators. -/
theorem splitChars_length (sep : Char) (cs : List Char) :
    (splitChars sep cs).length = cs.count sep + 1 := by
  induction cs with
  | nil => simp [splitChars]
  | cons c cs ih =>
    by_cases hc : c = sep
    · simp [splitChars, hc, ih]
    · cases h : splitChars sep cs with
      | nil => exact absurd h (splitChars_ne_nil sep cs)
      | cons seg rest =>
        rw [h] at ih
        simp only [splitChars, hc, if_false, h]
        rw [List.count_cons_of_ne (fun e => hc e.symm)]
        simpa using ih

/-- Joining the pieces of a split with the separator gives the text back. -/
theorem intercalate_splitChars (sep : Char) (cs : List Char) :
    [sep].intercalate (splitChars sep cs) = cs := by
  induction cs with
  | nil => simp [splitChars, List.intercalate]
  | cons c cs ih =>
    by_cases hc : c = sep
    · cases h : splitChars sep cs with
      | nil => exact absurd h (splitChars_ne_nil sep cs)
      | cons seg rest =>
        rw [h] at ih
        simp only [splitChars, hc, if_true, h]
        simp only [List.intercalate, List.intersperse_cons₂, List.flatten_cons, List.nil_append,
          List.singleton_append, List.cons.injEq, true_and]
        exact ih
    · cases h : splitChars sep cs with
      | nil => exact absurd h (splitChars_ne_nil sep cs)
      | cons seg rest =>
        rw [h] at ih
        simp only [splitChars, hc, if_false, h]
        cases rest with
        | nil => simpa [List.intercalate] using ih
        | cons r rs => simpa [List.intercalate] using ih

/-- The characters of a joined list of strings, for the loop of `String.intercalate`. -/
theorem intercalate_go_data (sep : String) (l : List String) (acc : String) :
    (String.intercalate.go acc sep l).data =
      acc.data ++ (l.map (fun a => sep.data ++ a.data)).flatten := by
  induction l generalizing acc with
  | nil => simp [String.intercalate.go]
  | cons a as ih => simp [String.intercalate.go, ih, String.data_append, List.append_assoc]

/-- Joining strings joins their character lists. -/
theorem intercalate_data (sep : String) (l : List String) :
    (sep.intercalate l).data = sep.data.intercalate (l.map String.data) := by
  cases l with
  | nil => rfl
  | cons a as =>
    simp only [String.intercalate, intercalate_go_data, List.map_cons, List.intercalate]
    induction as generalizing a with
    | nil => simp
    | cons b bs ih => simp [ih b]

/-- C19: `mergeOption` is total and returns one field path per string, in order, the
i-th holding the pieces of the i-th string split at every dot: no piece holds a dot,
there is one piece more than dots, and joining the pieces with dots gives the string
back; so an empty string, a leading dot, a trailing dot or two dots in a row give a
field path with an empty segment. -/
theorem mergeOption_split (ps : Option (List String)) :
    (mergeOption ps).All = false
      ∧ (mergeOption ps).Fields.getD [] =
          (ps.getD []).map (fun p => { Field := some (stringsSplit p (Char.ofNat 46)) })
      ∧ ((mergeOption ps).Fields.getD []).length = (ps.getD []).length
      ∧ (∀ p : String,
          (∀ seg ∈ stringsSplit p (Char.ofNat 46), Char.ofNat 46 ∉ seg.data)
            ∧ (stringsSplit p (Char.ofNat 46)).length = p.data.count (Char.ofNat 46) + 1
            ∧ ".".intercalate (stringsSplit p (Char.ofNat 46)) = p)
      ∧ (∀ p : String,
          (p.data = [] ∨ p.data.head? = some (Char.ofNat 46)
              ∨ p.data.getLast? = some (Char.ofNat 46)
              ∨ [Char.ofNat 46, Char.ofNat 46] <:+: p.data) →
            "" ∈ stringsSplit p (Char.ofNat 46))
      ∧ mergeOption (some ["a..b", ".a", "a.", ""]) =
          { All := false,
            Fields := some [{ Field := some ["a", "", "b"] }, { Field := some ["", "a"] },
              { Field := some ["a", ""] }, { Field := some [""] }] } := by
  have hfields : (mergeOption ps).Fields.getD [] =
      (ps.getD []).map (fun p => { Field := some (stringsSplit p (Char.ofNat 46)) }) := by
    unfold mergeOption mergePathsOption toFieldPaths
    simp only [foldl_append]
    simp
  refine ⟨rfl, hfields, ?_, ?_, ?_, by decide⟩
  · rw [hfields, List.length_map]
  · intro p
    refine ⟨?_, ?_, ?_⟩
    · intro seg hseg
      obtain ⟨cs, hcs, rfl⟩ := List.mem_map.mp hseg
      exact splitChars_no_sep _ _ cs hcs
    · simp [stringsSplit, splitChars_length]
    · apply String.ext
      rw [intercalate_data]
      have hmap : (stringsSplit p (Char.ofNat 46)).map String.data =
          splitChars (Char.ofNat 46) p.data := by
        simp [stringsSplit, Function.comp_def]
      rw [hmap]
      exact intercalate_splitChars (Char.ofNat 46) p.data
  · intro p h
    have hmem : [] ∈ splitChars (Char.ofNat 46) p.data := by
      rcases h with h | h | h | h
      · rw [h]
        simp [splitChars]
      · cases hd : p.data with
        | nil => simp [splitChars]
        | cons c cs =>
          rw [hd] at h
          simp only [List.head?_cons, Option.some.injEq] at h
          simp [splitChars, h]
      · obtain ⟨xs, hxs⟩ := List.getLast?_eq_some_iff.mp h
        rw [hxs, splitChars_append]
        simp [splitChars]
      · obtain ⟨xs, ys, hxy⟩ := h
        have : p.data = xs ++ Char.ofNat 46 :: (Char.ofNat 46 :: ys) := by
          rw [← hxy]
          simp
        rw [this, splitChars_append]
        simp [splitChars]
    exact List.mem_map.mpr ⟨[], hmem, rfl⟩

/-- A property decided on the list a generator returns holds of each fixture. -/
theorem forall_of_decide {α : Type} (o : Option (List α)) (P : α → Prop)
    [DecidablePred P] (hall : (o.getD []).all (fun f => decide (P f)) = true)
    (l : List α) (h : o = some l) : ∀ f ∈ l, P f :=
  fun f hf => of_decide_eq_true (forall_of_all o (fun f => decide (P f)) hall l h f hf)

/-- C11, as stated, fails: fixture 7 of `genUpdatePaths` is not an error, supplies the
paths `[a, b]` and `[c]` with the values `ServerTimestamp` and `1`, and its expected
mask is `[c]`: one entry for two supplied paths. -/
theorem genUpdatePaths_mask_counterexample :
    ((genUpdatePaths (mainUpdateTimePrecondition aTimestamp)).getD [])[6]?.map
        (fun f => f.2.isError) = some false
      ∧ ((genUpdatePaths (mainUpdateTimePrecondition aTimestamp)).getD [])[6]?.map
          suppliedPaths = some [["a", "b"], ["c"]]
      ∧ ((genUpdatePaths (mainUpdateTimePrecondition aTimestamp)).getD [])[6]?.map
          (fun f => f.2.jsonValues) = some (some ["\"ServerTimestamp\"", "1"])
      ∧ ((genUpdatePaths (mainUpdateTimePrecondition aTimestamp)).getD [])[6]?.map
          (fun f => f.2.request.bind CommitRequest.mask) = some (some ["c"])
      ∧ ¬ (∀ f ∈ (genUpdatePaths (mainUpdateTimePrecondition aTimestamp)).getD [],
            f.2.isError = false →
              f.2.request.bind CommitRequest.mask = some (allSuppliedPaths f))
      ∧ ¬ (∀ f ∈ (genUpdatePaths (mainUpdateTimePrecondition aTimestamp)).getD [],
            f.2.isError = false →
              ((f.2.request.bind CommitRequest.mask).getD []).length =
                (suppliedPaths f).length) := by
  refine ⟨by decide, by decide, by decide, by decide, by decide, by decide⟩

/-- C11, amended: for every non-error fixture of `genUpdatePaths` the expected update
mask is the sorted list of the canonical renderings of the supplied field paths whose
value is not the `ServerTimestamp` sentinel, each rendered from its literal segments
without splitting on dots; fixtures 1, 2 and 7 supply `[[a], [b, c]]`, `[[a.b, f.g]]`
and `[[a, b], [c]]` and have the masks `[a, b.c]`, one quoted entry, and `[c]`. -/
theorem genUpdatePaths_mask (t : Timestamp) :
    ∃ p, genUpdatePaths (mainUpdateTimePrecondition t) = some p
      ∧ (∀ f ∈ p, f.2.isError = false →
          f.2.request.bind CommitRequest.mask = some (ordinarySuppliedPaths f))
      ∧ (∀ f ∈ p, suppliedPaths f = (f.2.fieldPaths.getD []).map (fun fp => fp.Field.getD []))
      ∧ p[0]?.map suppliedPaths = some [["a"], ["b", "c"]]
      ∧ p[0]?.map (fun f => f.2.request.bind CommitRequest.mask) = some (some ["a", "b.c"])
      ∧ p[1]?.map suppliedPaths = some [["a.b", "f.g"]]
      ∧ p[1]?.map (fun f => f.2.request.bind CommitRequest.mask) =
          some (some ["`a.b`.`f.g`"])
      ∧ p[6]?.map suppliedPaths = some [["a", "b"], ["c"]]
      ∧ p[6]?.map (fun f => f.2.jsonValues) = some (some ["\"ServerTimestamp\"", "1"])
      ∧ p[6]?.map (fun f => f.2.request.bind CommitRequest.mask) = some (some ["c"]) := by
  obtain ⟨p, hp⟩ := Option.isSome_iff_exists.mp
    (show (genUpdatePaths (mainUpdateTimePrecondition t)).isSome = true from rfl)
  have h1 := forall_of_decide (genUpdatePaths (mainUpdateTimePrecondition t))
    (fun f => f.2.isError = false →
      f.2.request.bind CommitRequest.mask = some (ordinarySuppliedPaths f)) (by rfl) p hp
  have h2 := forall_of_decide (genUpdatePaths (mainUpdateTimePrecondition t))
    (fun f => suppliedPaths f = (f.2.fieldPaths.getD []).map (fun fp => fp.Field.getD []))
    (by rfl) p hp
  have e0 : ((genUpdatePaths (mainUpdateTimePrecondition t)).getD [])[0]?.map
      suppliedPaths = some [["a"], ["b", "c"]] := rfl
  have e1 : ((genUpdatePaths (mainUpdateTimePrecondition t)).getD [])[0]?.map
      (fun f => f.2.request.bind CommitRequest.mask) = some (some ["a", "b.c"]) := rfl
  have e2 : ((genUpdatePaths (mainUpdateTimePrecondition t)).getD [])[1]?.map
      suppliedPaths = some [["a.b", "f.g"]] := rfl
  have e3 : ((genUpdatePaths (mainUpdateTimePrecondition t)).getD [])[1]?.map
      (fun f => f.2.request.bind CommitRequest.mask) = some (some ["`a.b`.`f.g`"]) := rfl
  have e4 : ((genUpdatePaths (mainUpdateTimePrecondition t)).getD [])[6]?.map
      suppliedPaths = some [["a", "b"], ["c"]] := rfl
  have e5 : ((genUpdatePaths (mainUpdateTimePrecondition t)).getD [])[6]?.map
      (fun f => f.2.jsonValues) = some (some ["\"ServerTimestamp\"", "1"]) := rfl
  have e6 : ((genUpdatePaths (mainUpdateTimePrecondition t)).getD [])[6]?.map
      (fun f => f.2.request.bind CommitRequest.mask) = some (some ["c"]) := rfl
  rw [hp] at e0 e1 e2 e3 e4 e5 e6
  exact ⟨p, hp, h1, h2, e0, e1, e2, e3, e4, e5, e6⟩

/-- The mask and the transform paths of the request `newCommitRequest` returns are its
arguments, in the order given. -/
theorem newCommitRequest_paths (writeFields : Option Fields)
    (mask transform : Option (List String)) :
    (newCommitRequest writeFields mask transform).mask = mask
      ∧ (newCommitRequest writeFields mask transform).transformPaths = transform.getD [] := by
  have hfts : ∀ ps : List String, (transformWrite ps).transformPaths = ps := by
    intro ps
    simp only [transformWrite, Write.transformPaths]
    rw [foldl_append]
    simp [Function.comp_def]
  have hupd : ∀ (wf : Option Fields) (m : Option (List String)),
      (updateWrite wf m).transformPaths = [] := fun _ _ => rfl
  constructor
  · unfold CommitRequest.mask
    rw [newCommitRequest_writes]
    cases writeFields <;> cases mask <;> cases transform <;>
      simp [updateWrite, transformWrite]
  · unfold CommitRequest.transformPaths
    rw [newCommitRequest_writes]
    cases writeFields <;> cases mask <;> cases transform <;> simp [hfts, hupd]

/-- C12: in every request of `genCreate`, `genSet`, `genUpdate` and `genUpdatePaths`
the field paths of the update mask and the field paths of the transforms are each in
strictly ascending order of their characters; `newCommitRequest` keeps the order of
its arguments, so the order is that of the table rows, where the path ending in `/`
stands before the one ending in `~`. -/
theorem fixture_paths_sorted (t : Timestamp) :
    ∃ c s u p, genCreate = some c ∧ genSet = some s
      ∧ genUpdate (mainUpdateTimePrecondition t) = some u
      ∧ genUpdatePaths (mainUpdateTimePrecondition t) = some p
      ∧ (∀ f ∈ c ++ s ++ u ++ p, ∀ req, f.2.request = some req → ∀ w ∈ req.writes,
          w.maskPaths.Pairwise (fun a b => a.data < b.data)
            ∧ w.transformPaths.Pairwise (fun a b => a.data < b.data))
      ∧ (∀ (writeFields : Option Fields) (mask transform : Option (List String)),
          (newCommitRequest writeFields mask transform).mask = mask
            ∧ (newCommitRequest writeFields mask transform).transformPaths =
                transform.getD [])
      ∧ p[2]?.map (fun f => f.2.request.bind CommitRequest.mask) =
          some (some ["`*`.`/`", "`*`.`~`"])
      ∧ ("`*`.`/`" : String).data < ("`*`.`~`" : String).data := by
  obtain ⟨c, hc⟩ := Option.isSome_iff_exists.mp (show genCreate.isSome = true from rfl)
  obtain ⟨s, hs⟩ := Option.isSome_iff_exists.mp (show genSet.isSome = true from rfl)
  obtain ⟨u, hu⟩ := Option.isSome_iff_exists.mp
    (show (genUpdate (mainUpdateTimePrecondition t)).isSome = true from rfl)
  obtain ⟨p, hp⟩ := Option.isSome_iff_exists.mp
    (show (genUpdatePaths (mainUpdateTimePrecondition t)).isSome = true from rfl)
  have e : ((genUpdatePaths (mainUpdateTimePrecondition t)).getD [])[2]?.map
      (fun f => f.2.request.bind CommitRequest.mask) =
        some (some ["`*`.`/`", "`*`.`~`"]) := rfl
  rw [hp] at e
  refine ⟨c, s, u, p, hc, hs, hu, hp, ?_, newCommitRequest_paths, e, by decide⟩
  intro f hf req hreq w hw
  have key : ∀ (o : Option (List (String × Test))) (l : List (String × Test)),
      (o.getD []).all (fun f => decide (∀ req ∈ f.2.request, ∀ w ∈ req.writes,
          w.maskPaths.Pairwise (fun a b => a.data < b.data)
            ∧ w.transformPaths.Pairwise (fun a b => a.data < b.data))) = true →
      o = some l → f ∈ l →
        w.maskPaths.Pairwise (fun a b => a.data < b.data)
          ∧ w.transformPaths.Pairwise (fun a b => a.data < b.data) := by
    intro o l hall hl hfl
    exact forall_of_decide o _ hall l hl f hfl req (Option.mem_def.mpr hreq) w hw
  simp only [List.mem_append] at hf
  rcases hf with ((hf | hf) | hf) | hf
  · exact key genCreate c (by rfl) hc hf
  · exact key genSet s (by rfl) hs hf
  · exact key (genUpdate (mainUpdateTimePrecondition t)) u (by rfl) hu hf
  · exact key (genUpdatePaths (mainUpdateTimePrecondition t)) p (by rfl) hp hf

/-- In a list whose paths are pairwise no prefix of one another, the paths at two
different positions are never a prefix of one another, equality included. -/
theorem not_prefix_of_pairwise (ps : List (List String))
    (h : ps.Pairwise (fun a b => ¬ a <+: b ∧ ¬ b <+: a)) (i j : Nat) (a b : List String)
    (hij : i ≠ j) (hi : ps[i]? = some a) (hj : ps[j]? = some b) : ¬ a <+: b := by
  obtain ⟨hi', rfl⟩ := List.getElem?_eq_some.mp hi
  obtain ⟨hj', rfl⟩ := List.getElem?_eq_some.mp hj
  rcases Nat.lt_or_gt_of_ne hij with hlt | hgt
  · exact (List.pairwise_iff_getElem.mp h i j hi' hj' hlt).1
  · exact (List.pairwise_iff_getElem.mp h j i hj' hi' hgt).2

/-- C13: in every fixture of `genUpdate` (top-level keys split on dots) and of
`genUpdatePaths` (supplied segment lists), two supplied paths at different positions
of which one is a prefix of the other, or equal to it, make the fixture an error
fixture; so the supplied paths of every non-error fixture are pairwise distinct and
prefix-free. Fixtures 12 and 13 of `genUpdatePaths` and fixture 16 of `genUpdate` are
the error fixtures with such paths. -/
theorem update_paths_prefix_free (t : Timestamp) :
    ∃ u p, genUpdate (mainUpdateTimePrecondition t) = some u
      ∧ genUpdatePaths (mainUpdateTimePrecondition t) = some p
      ∧ (∀ f ∈ u ++ p, ∀ (i j : Nat) (a b : List String), i ≠ j →
          (suppliedPaths f)[i]? = some a → (suppliedPaths f)[j]? = some b → a <+: b →
            f.2.isError = true)
      ∧ (∀ f ∈ u ++ p, f.2.isError = false →
          (suppliedPaths f).Pairwise (fun a b => ¬ a <+: b ∧ ¬ b <+: a))
      ∧ p[11]?.map suppliedPaths = some [["a"], ["b"], ["a"]]
      ∧ p[11]?.map (fun f => f.2.isError) = some true
      ∧ p[12]?.map suppliedPaths = some [["*", "a"], ["b"], ["*", "a", "b"]]
      ∧ p[12]?.map (fun f => f.2.isError) = some true
      ∧ u[15]?.map (fun f => f.2.jsonData) = some (some "\x7b\"a.b\": 1, \"a\": 2\x7d")
      ∧ u[15]?.map suppliedPaths = some [["a", "b"], ["a"]]
      ∧ u[15]?.map (fun f => f.2.isError) = some true := by
  obtain ⟨u, hu⟩ := Option.isSome_iff_exists.mp
    (show (genUpdate (mainUpdateTimePrecondition t)).isSome = true from rfl)
  obtain ⟨p, hp⟩ := Option.isSome_iff_exists.mp
    (show (genUpdatePaths (mainUpdateTimePrecondition t)).isSome = true from rfl)
  have hfree : ∀ f ∈ u ++ p, f.2.isError = false →
      (suppliedPaths f).Pairwise (fun a b => ¬ a <+: b ∧ ¬ b <+: a) := by
    intro f hf
    rcases List.mem_append.mp hf with hf | hf
    · exact forall_of_decide (genUpdate (mainUpdateTimePrecondition t))
        (fun f => f.2.isError = false →
          (suppliedPaths f).Pairwise (fun a b => ¬ a <+: b ∧ ¬ b <+: a)) (by rfl) u hu f hf
    · exact forall_of_decide (genUpdatePaths (mainUpdateTimePrecondition t))
        (fun f => f.2.isError = false →
          (suppliedPaths f).Pairwise (fun a b => ¬ a <+: b ∧ ¬ b <+: a)) (by rfl) p hp f hf
  have e1 : ((genUpdatePaths (mainUpdateTimePrecondition t)).getD [])[11]?.map
      suppliedPaths = some [["a"], ["b"], ["a"]] := rfl
  have e2 : ((genUpdatePaths (mainUpdateTimePrecondition t)).getD [])[11]?.map
      (fun f => f.2.isError) = some true := rfl
  have e3 : ((genUpdatePaths (mainUpdateTimePrecondition t)).getD [])[12]?.map
      suppliedPaths = some [["*", "a"], ["b"], ["*", "a", "b"]] := rfl
  have e4 : ((genUpdatePaths (mainUpdateTimePrecondition t)).getD [])[12]?.map
      (fun f => f.2.isError) = some true := rfl
  have e5 : ((genUpdate (mainUpdateTimePrecondition t)).getD [])[15]?.map
      (fun f => f.2.jsonData) = some (some "\x7b\"a.b\": 1, \"a\": 2\x7d") := rfl
  have e6 : ((genUpdate (mainUpdateTimePrecondition t)).getD [])[15]?.map
      suppliedPaths = some [["a", "b"], ["a"]] := rfl
  have e7 : ((genUpdate (mainUpdateTimePrecondition t)).getD [])[15]?.map
      (fun f => f.2.isError) = some true := rfl
  rw [hp] at e1 e2 e3 e4
  rw [hu] at e5 e6 e7
  refine ⟨u, p, hu, hp, ?_, hfree, e1, e2, e3, e4, e5, e6, e7⟩
  intro f hf i j a b hij hi hj hab
  cases he : f.2.isError with
  | true => rfl
  | false => exact absurd hab (not_prefix_of_pairwise _ (hfree f hf he) i j a b hij hi hj)

/-- C15: every fixture of `genDelete` is a non-error fixture whose request has exactly
one write, the delete of `docPath` without mask, carrying the precondition of the row
and none when the row has none; the three rows have no precondition, the
last-update-time precondition and exists=true. -/
theorem genDelete_requests (t : Timestamp) :
    ∃ d, genDelete (mainUpdateTimePrecondition t) = some d
      ∧ (∀ f ∈ d, f.2.isError = false
          ∧ f.2.request = some
              { Database := database,
                Writes := some [
                  { Operation := some (.Delete docPath),
                    UpdateMask := none,
                    CurrentDocument := f.2.precondition }] })
      ∧ d.map (fun f => f.2.precondition) =
          [none, some (.UpdateTime t), some (.Exists true)] := by
  have h : genDelete (mainUpdateTimePrecondition t) = some [
      ("delete-1",
        { Description := "delete without precondition",
          Test := .Delete
            { DocRefPath := docPath,
              Precondition := none,
              Request := some
                { Database := database,
                  Writes := some [
                    { Operation := some (.Delete docPath),
                      UpdateMask := none,
                      CurrentDocument := none }] },
              IsError := false } }),
      ("delete-2",
        { Description := "delete with last-update-time precondition",
          Test := .Delete
            { DocRefPath := docPath,
              Precondition := some (.UpdateTime t),
              Request := some
                { Database := database,
                  Writes := some [
                    { Operation := some (.Delete docPath),
                      UpdateMask := none,
                      CurrentDocument := some (.UpdateTime t) }] },
              IsError := false } }),
      ("delete-3",
        { Description := "delete with exists precondition",
          Test := .Delete
            { DocRefPath := docPath,
              Precondition := some (.Exists true),
              Request := some
                { Database := database,
                  Writes := some [
                    { Operation := some (.Delete docPath),
                      UpdateMask := none,
                      CurrentDocument := some (.Exists true) }] },
              IsError := false } })] := rfl
  refine ⟨_, h, ?_, rfl⟩
  intro f hf
  simp only [List.mem_cons, List.mem_nil_iff, or_false] at hf
  rcases hf with rfl | rfl | rfl <;> exact ⟨rfl, rfl⟩

/-- C16: in every non-error fixture of `genUpdate` a top-level key is in the expected
mask, under its dotted path, exactly when its value is not directly the
`ServerTimestamp` sentinel, and the mask is the sorted list of those paths; a key with
the value `Delete` and a key with a map holding a nested `ServerTimestamp` are in the
mask. Fixture 11 has the mask `[a, c]` and the transforms `[b, c.d]`. -/
theorem genUpdate_mask (t : Timestamp) :
    ∃ u, genUpdate (mainUpdateTimePrecondition t) = some u
      ∧ (∀ f ∈ u, f.2.isError = false →
          f.2.request.bind CommitRequest.mask = some (ordinarySuppliedPaths f))
      ∧ (∀ f ∈ u, f.2.isError = false → ∀ e ∈ supplied f,
          (render e.1 ∈ (f.2.request.bind CommitRequest.mask).getD [] ↔
            isServerTimestamp e = false))
      ∧ u[10]?.map (fun f => f.2.jsonData) = some (some
          "\x7b\"a\": 1, \"b\": \"ServerTimestamp\", \"c\": \x7b\"d\": \"ServerTimestamp\"\x7d\x7d")
      ∧ u[10]?.map (fun f => f.2.isError) = some false
      ∧ u[10]?.map (fun f => f.2.request.bind CommitRequest.mask) = some (some ["a", "c"])
      ∧ u[10]?.map (fun f => f.2.request.map CommitRequest.transformPaths) =
          some (some ["b", "c.d"])
      ∧ u[4]?.map (fun f => f.2.jsonData) = some (some "\x7b\"a\": 1, \"b\": \"Delete\"\x7d")
      ∧ u[4]?.map (fun f => f.2.isError) = some false
      ∧ u[4]?.map (fun f => f.2.request.bind CommitRequest.mask) = some (some ["a", "b"]) := by
  obtain ⟨u, hu⟩ := Option.isSome_iff_exists.mp
    (show (genUpdate (mainUpdateTimePrecondition t)).isSome = true from rfl)
  have h1 := forall_of_decide (genUpdate (mainUpdateTimePrecondition t))
    (fun f => f.2.isError = false →
      f.2.request.bind CommitRequest.mask = some (ordinarySuppliedPaths f)) (by rfl) u hu
  have h2 := forall_of_decide (genUpdate (mainUpdateTimePrecondition t))
    (fun f => f.2.isError = false → ∀ e ∈ supplied f,
      (render e.1 ∈ (f.2.request.bind CommitRequest.mask).getD [] ↔
        isServerTimestamp e = false)) (by rfl) u hu
  have e1 : ((genUpdate (mainUpdateTimePrecondition t)).getD [])[10]?.map
      (fun f => f.2.jsonData) = some (some
        "\x7b\"a\": 1, \"b\": \"ServerTimestamp\", \"c\": \x7b\"d\": \"ServerTimestamp\"\x7d\x7d") :=
    rfl
  have e2 : ((genUpdate (mainUpdateTimePrecondition t)).getD [])[10]?.map
      (fun f => f.2.isError) = some false := rfl
  have e3 : ((genUpdate (mainUpdateTimePrecondition t)).getD [])[10]?.map
      (fun f => f.2.request.bind CommitRequest.mask) = some (some ["a", "c"]) := rfl
  have e4 : ((genUpdate (mainUpdateTimePrecondition t)).getD [])[10]?.map
      (fun f => f.2.request.map CommitRequest.transformPaths) = some (some ["b", "c.d"]) := rfl
  have e5 : ((genUpdate (mainUpdateTimePrecondition t)).getD [])[4]?.map
      (fun f => f.2.jsonData) = some (some "\x7b\"a\": 1, \"b\": \"Delete\"\x7d") := rfl
  have e6 : ((genUpdate (mainUpdateTimePrecondition t)).getD [])[4]?.map
      (fun f => f.2.isError) = some false := rfl
  have e7 : ((genUpdate (mainUpdateTimePrecondition t)).getD [])[4]?.map
      (fun f => f.2.request.bind CommitRequest.mask) = some (some ["a", "b"]) := rfl
  rw [hu] at e1 e2 e3 e4 e5 e6 e7
  exact ⟨u, hu, h1, h2, e1, e2, e3, e4, e5, e6, e7⟩

/-- C17: in every non-error fixture of `genUpdatePaths` each entry of the expected
mask and each expected transform path is the canonical rendering of a supplied field
path, and the rendering of every supplied path stands exactly once in the two lists
together; `[a.b, f.g]` renders with both segments quoted, `[*, ~]` and `[*, /]` as
well. -/
theorem genUpdatePaths_rendering (t : Timestamp) :
    ∃ p, genUpdatePaths (mainUpdateTimePrecondition t) = some p
      ∧ (∀ f ∈ p, f.2.isError = false → ∀ req, f.2.request = some req →
          (∀ e ∈ req.mask.getD [] ++ req.transformPaths,
              e ∈ (suppliedPaths f).map render)
            ∧ (∀ sp ∈ suppliedPaths f,
              (req.mask.getD [] ++ req.transformPaths).count (render sp) = 1))
      ∧ render ["a.b", "f.g"] = "`a.b`.`f.g`"
      ∧ render ["*", "~"] = "`*`.`~`"
      ∧ render ["*", "/"] = "`*`.`/`"
      ∧ render ["a", "b"] = "a.b"
      ∧ render ["a1", "1a", "_"] = "a1.`1a`._"
      ∧ p[1]?.map (fun f => f.2.request.bind CommitRequest.mask) =
          some (some ["`a.b`.`f.g`"])
      ∧ p[2]?.map (fun f => f.2.request.bind CommitRequest.mask) =
          some (some ["`*`.`/`", "`*`.`~`"])
      ∧ p[6]?.map (fun f => f.2.request.map CommitRequest.transformPaths) =
          some (some ["a.b"]) := by
  obtain ⟨p, hp⟩ := Option.isSome_iff_exists.mp
    (show (genUpdatePaths (mainUpdateTimePrecondition t)).isSome = true from rfl)
  have h1 := forall_of_decide (genUpdatePaths (mainUpdateTimePrecondition t))
    (fun f => f.2.isError = false → ∀ req ∈ f.2.request,
      (∀ e ∈ req.mask.getD [] ++ req.transformPaths, e ∈ (suppliedPaths f).map render)
        ∧ (∀ sp ∈ suppliedPaths f,
          (req.mask.getD [] ++ req.transformPaths).count (render sp) = 1)) (by rfl) p hp
  have e1 : ((genUpdatePaths (mainUpdateTimePrecondition t)).getD [])[1]?.map
      (fun f => f.2.request.bind CommitRequest.mask) = some (some ["`a.b`.`f.g`"]) := rfl
  have e2 : ((genUpdatePaths (mainUpdateTimePrecondition t)).getD [])[2]?.map
      (fun f => f.2.request.bind CommitRequest.mask) =
        some (some ["`*`.`/`", "`*`.`~`"]) := rfl
  have e3 : ((genUpdatePaths (mainUpdateTimePrecondition t)).getD [])[6]?.map
      (fun f => f.2.request.map CommitRequest.transformPaths) = some (some ["a.b"]) := rfl
  rw [hp] at e1 e2 e3
  refine ⟨p, hp, ?_, by decide, by decide, by decide, by decide, by decide, e1, e2, e3⟩
  intro f hf he req hreq
  exact h1 f hf he req (Option.mem_def.mpr hreq)

/-- When every file write succeeds, a run of calls of `writeTest` creates one file
per call, in order, and adds the number of calls to `nTests`. -/
theorem writeTests_ok (writeTestToFile : String → Test → Bool)
    (hw : ∀ path t, writeTestToFile path t = true) :
    ∀ (calls : List (String × Test)) (w : World),
      writeTests writeTestToFile calls w = some
        { w with
          files := w.files ++
            calls.map (fun c => (filepathJoin w.outputDir (c.1 ++ ".textproto"), c.2)),
          nTests := w.nTests + calls.length }
  | [], w => by simp [writeTests]
  | (filename, t) :: rest, w => by
    simp only [writeTests, writeTest, hw, if_true]
    rw [writeTests_ok writeTestToFile hw rest]
    simp [Nat.add_assoc, Nat.add_comm 1]

/-- A text without the separator is the one piece of its split. -/
theorem splitChars_of_not_mem (sep : Char) (cs : List Char) (h : sep ∉ cs) :
    splitChars sep cs = [cs] := by
  induction cs with
  | nil => rfl
  | cons c cs ih =>
    have hc : ¬ c = sep := fun e => h (by simp [e])
    have hcs : sep ∉ cs := fun e => h (List.mem_cons_of_mem _ e)
    simp [splitChars, hc, ih hcs]

/-- What `isFileName` checks, spelled out. -/
theorem isFileName_spec (f : String) (h : isFileName f = true) :
    f.data ≠ [] ∧ '/' ∉ f.data ∧ f.data ≠ ['.'] ∧ f.data ≠ ['.', '.'] := by
  simpa [isFileName, and_assoc] using h

/-- Joining pieces of which the last is `a` gives a text that ends in `a`, after a
text that depends on the other pieces only. -/
theorem intercalate_concat (sep : List Char) (r : List (List Char)) :
    ∃ pre : List Char, ∀ a : List Char, sep.intercalate (r ++ [a]) = pre ++ a := by
  induction r with
  | nil => exact ⟨[], fun a => by simp [List.intercalate]⟩
  | cons x xs ih =>
    obtain ⟨pre, hpre⟩ := ih
    refine ⟨x ++ sep ++ pre, fun a => ?_⟩
    have h := hpre a
    cases xs with
    | nil =>
      simp only [List.nil_append, List.intercalate, List.intersperse_single,
        List.flatten_cons, List.flatten_nil, List.append_nil] at h
      simp [List.intercalate, ← h]
    | cons y ys =>
      simp only [List.intercalate, List.cons_append, List.intersperse_cons₂,
        List.flatten_cons] at h ⊢
      rw [h]
      simp [List.append_assoc]

/-- Joining a directory and a file name with `filepath.Join` gives the file name after
a text that depends on the directory only. -/
theorem filepathJoin_fileName (dir : String) :
    ∃ pre : List Char, ∀ f : String, isFileName f = true →
      filepathJoin dir f = String.mk (pre ++ f.data) := by
  by_cases hd : dir = ""
  · refine ⟨[], fun f hf => ?_⟩
    obtain ⟨hne, hslash, hdot, hdotdot⟩ := isFileName_spec f hf
    have hf0 : f ≠ "" := fun e => hne (by rw [e])
    have hroot : ¬ f.data.head? = some '/' := by
      intro e
      cases hfd : f.data with
      | nil => exact hne hfd
      | cons c cs =>
        rw [hfd] at e hslash
        simp only [List.head?_cons, Option.some.injEq] at e
        exact hslash (by simp [e])
    simp only [filepathJoin, hd, ne_eq, not_true_eq_false, if_false, hf0, not_false_eq_true,
      if_true, filepathClean, hroot, decide_False, Bool.false_eq_true,
      splitChars_of_not_mem _ _ hslash, List.foldl_cons, List.foldl_nil, cleanStep, hne, hdot,
      hdotdot, or_self, List.reverse_cons, List.reverse_nil, List.nil_append, List.intercalate,
      List.intersperse_single, List.flatten_cons, List.flatten_nil, List.append_nil]
  · obtain ⟨pre, hpre⟩ := intercalate_concat ['/']
      ((splitChars '/' dir.data).foldl
        (cleanStep (decide (dir.data.head? = some '/'))) []).reverse
    refine ⟨(if decide (dir.data.head? = some '/') = true then ['/'] else []) ++ pre,
      fun f hf => ?_⟩
    obtain ⟨hne, hslash, hdot, hdotdot⟩ := isFileName_spec f hf
    have hdd : dir.data ≠ [] := fun e => hd (String.ext (by rw [e]))
    have hhead : (dir ++ "/" ++ f).data.head? = dir.data.head? := by
      cases hdata : dir.data with
      | nil => exact absurd hdata hdd
      | cons c cs => simp [String.data_append, hdata]
    have hsplit : (dir ++ "/" ++ f).data = dir.data ++ '/' :: f.data := by
      simp [String.data_append]
    have hout : ∀ l : List Char, l ++ f.data ≠ [] := by
      intro l e
      exact hne (List.append_eq_nil.mp e).2
    simp only [filepathJoin, hd, ne_eq, not_false_eq_true, if_true, filepathClean, hhead]
    rw [hsplit, splitChars_append, splitChars_of_not_mem _ _ hslash, List.foldl_append]
    simp only [List.foldl_cons, List.foldl_nil, cleanStep, hne, hdot, hdotdot, or_self,
      if_false, List.reverse_cons, hpre, ← List.append_assoc, hout]

/-- The model of `filepath.Clean` on the cases of Go's own test table for it. -/
theorem filepathClean_examples :
    [filepathClean "abc", filepathClean "abc/def", filepathClean ".", filepathClean "..",
        filepathClean "../../abc", filepathClean "/abc", filepathClean "/", filepathClean "",
        filepathClean "abc/", filepathClean "./", filepathClean "../../",
        filepathClean "abc//def//ghi", filepathClean "abc//", filepathClean "abc/./def",
        filepathClean "/./abc/def", filepathClean "abc/.",
        filepathClean "abc/def/ghi/../jkl", filepathClean "abc/def/../ghi/../jkl",
        filepathClean "abc/def/..", filepathClean "abc/def/../..",
        filepathClean "/abc/def/../..", filepathClean "abc/def/../../..",
        filepathClean "/abc/def/../../..",
        filepathClean "abc/def/../../../ghi/jkl/../../../mno", filepathClean "/../abc",
        filepathClean "abc/./../def", filepathClean "abc//./../def",
        filepathClean "abc/../../././../def"] =
      ["abc", "abc/def", ".", "..", "../../abc", "/abc", "/", ".", "abc", ".", "../..",
        "abc/def/ghi", "abc", "abc/def", "/abc/def", "abc", "abc/def/jkl", "abc/jkl", "abc",
        ".", "/", "..", "/", "../../mno", "/abc", "def", "def", "../../def"] := by
  decide

/-- The model of `filepath.Join` on the cases of Go's own test table for it, and the
output directory of `main` for an empty `GOPATH`, one with a trailing slash, one with
a `..` element and a plain one, with the path of the first file under the first. -/
theorem filepathJoin_examples :
    [filepathJoin "a" "b", filepathJoin "a" "", filepathJoin "" "b", filepathJoin "/" "a",
        filepathJoin "/" "a/b", filepathJoin "/" "", filepathJoin "//" "a",
        filepathJoin "/a" "b", filepathJoin "a/" "b", filepathJoin "a/" "",
        filepathJoin "" ""] =
      ["a/b", "a", "b", "/a", "/a/b", "/", "/a", "/a/b", "a/b", "a", ""]
      ∧ filepathJoin "" "src/cloud.google.com/go/firestore/testdata" =
          "src/cloud.google.com/go/firestore/testdata"
      ∧ filepathJoin "/tmp/gp3/" "src/cloud.google.com/go/firestore/testdata" =
          "/tmp/gp3/src/cloud.google.com/go/firestore/testdata"
      ∧ filepathJoin "/tmp/gp3/x/.." "src/cloud.google.com/go/firestore/testdata" =
          "/tmp/gp3/src/cloud.google.com/go/firestore/testdata"
      ∧ filepathJoin "/go" "src/cloud.google.com/go/firestore/testdata" =
          "/go/src/cloud.google.com/go/firestore/testdata"
      ∧ filepathJoin "src/cloud.google.com/go/firestore/testdata" "get-1.textproto" =
          "src/cloud.google.com/go/firestore/testdata/get-1.textproto" := by
  refine ⟨by decide, by decide, by decide, by decide, by decide, by decide⟩

/-- The file names of one run of `main`, generator after generator. -/
theorem mainCalls_names (aTimestamp : Timestamp) :
    (mainCalls aTimestamp).map (fun calls => calls.map (fun c => c.1)) = some
      (["get-1"]
        ++ (List.range 7).map (fun i => "create-" ++ toString (i + 1))
        ++ (List.range 19).map (fun i => "set-" ++ toString (i + 1))
        ++ (List.range 19).map (fun i => "update-" ++ toString (i + 1))
        ++ (List.range 16).map (fun i => "update-paths-" ++ toString (i + 1))
        ++ (List.range 3).map (fun i => "delete-" ++ toString (i + 1))) := by
  rfl

/-- C20: in one run of `main` in which every file write succeeds, for every `GOPATH`,
the file names passed to `writeTest` are `get-1`, `create-1..7`, `set-1..19`,
`update-1..19`, `update-paths-1..16` and `delete-1..3`, pairwise distinct, and so are
the paths `filepath.Join` gives the files created, so no file overwrites another;
`nTests` starts at 0, grows by one per call, and ends at 65, the number of files
written. -/
theorem main_writes_65 (gopath : String) (aTimestamp : Timestamp)
    (writeTestToFile : String → Test → Bool)
    (hw : ∀ path t, writeTestToFile path t = true) :
    ∃ calls w, mainCalls aTimestamp = some calls
      ∧ main gopath (some aTimestamp) writeTestToFile = some w
      ∧ w.outputDir = filepathJoin gopath "src/cloud.google.com/go/firestore/testdata"
      ∧ calls.map (fun c => c.1) =
          ["get-1"]
            ++ (List.range 7).map (fun i => "create-" ++ toString (i + 1))
            ++ (List.range 19).map (fun i => "set-" ++ toString (i + 1))
            ++ (List.range 19).map (fun i => "update-" ++ toString (i + 1))
            ++ (List.range 16).map (fun i => "update-paths-" ++ toString (i + 1))
            ++ (List.range 3).map (fun i => "delete-" ++ toString (i + 1))
      ∧ (calls.map (fun c => c.1)).Nodup
      ∧ w.files.map (fun f => f.1) =
          calls.map (fun c => filepathJoin w.outputDir (c.1 ++ ".textproto"))
      ∧ (w.files.map (fun f => f.1)).Nodup
      ∧ w.nTests = 65
      ∧ w.nTests = w.files.length := by
  obtain ⟨calls, hcalls⟩ := Option.isSome_iff_exists.mp
    (show (mainCalls aTimestamp).isSome = true from rfl)
  have hnames := mainCalls_names aTimestamp
  rw [hcalls] at hnames
  simp only [Option.map_some', Option.some.injEq] at hnames
  have hnodup : (calls.map (fun c => c.1)).Nodup := by
    rw [hnames]
    decide
  have hlen : calls.length = 65 := by
    have := congrArg List.length hnames
    simpa using this
  have hmain : main gopath (some aTimestamp) writeTestToFile = some
      { nTests := 0 + calls.length,
        outputDir := filepathJoin gopath "src/cloud.google.com/go/firestore/testdata",
        files := [] ++ calls.map (fun c =>
          (filepathJoin (filepathJoin gopath "src/cloud.google.com/go/firestore/testdata")
            (c.1 ++ ".textproto"), c.2)) } := by
    unfold main
    simp only [Option.bind_eq_bind, Option.some_bind, hcalls]
    rw [writeTests_ok writeTestToFile hw]
  refine ⟨calls, _, hcalls, hmain, rfl, hnames, hnodup, ?_, ?_, ?_, ?_⟩
  · simp [Function.comp_def]
  · obtain ⟨pre, hpre⟩ := filepathJoin_fileName
      (filepathJoin gopath "src/cloud.google.com/go/firestore/testdata")
    have hfile : ∀ n ∈ calls.map (fun c => c.1), isFileName (n ++ ".textproto") = true := by
      rw [hnames]
      decide
    have hinj : ∀ a ∈ calls.map (fun c => c.1), ∀ b ∈ calls.map (fun c => c.1),
        filepathJoin (filepathJoin gopath "src/cloud.google.com/go/firestore/testdata")
            (a ++ ".textproto") =
          filepathJoin (filepathJoin gopath "src/cloud.google.com/go/firestore/testdata")
            (b ++ ".textproto") → a = b := by
      intro a ha b hb hab
      rw [hpre _ (hfile a ha), hpre _ (hfile b hb)] at hab
      have hdata := congrArg String.data hab
      simp only [String.data_append] at hdata
      exact String.ext (List.append_cancel_right (List.append_cancel_left hdata))
    have := List.Nodup.map_on hinj hnodup
    simpa [List.map_map, Function.comp_def] using this
  · simp [hlen]
  · simp

/-- C20 for the `GOPATH` `/tmp/gp3/`, with a trailing slash, the timestamp of `main`
and a file system on which every write succeeds. -/
theorem main_writes_65_witness :
    (∀ (path : String) (t : Test), (fun _ _ => true) path t = true)
      ∧ ∃ calls w, mainCalls aTimestamp = some calls
        ∧ main "/tmp/gp3/" (some aTimestamp) (fun _ _ => true) = some w
        ∧ w.outputDir =
            filepathJoin "/tmp/gp3/" "src/cloud.google.com/go/firestore/testdata"
        ∧ calls.map (fun c => c.1) =
            ["get-1"]
              ++ (List.range 7).map (fun i => "create-" ++ toString (i + 1))
              ++ (List.range 19).map (fun i => "set-" ++ toString (i + 1))
              ++ (List.range 19).map (fun i => "update-" ++ toString (i + 1))
              ++ (List.range 16).map (fun i => "update-paths-" ++ toString (i + 1))
              ++ (List.range 3).map (fun i => "delete-" ++ toString (i + 1))
        ∧ (calls.map (fun c => c.1)).Nodup
        ∧ w.files.map (fun f => f.1) =
            calls.map (fun c => filepathJoin w.outputDir (c.1 ++ ".textproto"))
        ∧ (w.files.map (fun f => f.1)).Nodup
        ∧ w.nTests = 65
        ∧ w.nTests = w.files.length :=
  ⟨fun _ _ => rfl,
    main_writes_65 "/tmp/gp3/" aTimestamp (fun _ _ => true) (fun _ _ => rfl)⟩

end FirestoreTests
